import Mathlib

/-
  Verification development for quic_echo_server.c (QUIC echo / HTTP/3 /
  WebTransport server).  The data model and operations below are a shallow
  embedding of the per-connection protocol engine of the source file:
  the stream registry, the ngtcp2 callback surface (recv_stream_data,
  stream_open, stream_close, recv_datagram, ...), the nghttp3 callbacks
  (begin_headers, recv_header, end_headers, recv_data), the HTTP/3 setup
  (setup_h3_connection / handle_packet) and the write scheduler
  (write_streams).  Machine integers are modelled as Nat/Int; byte buffers
  as lists of Nat; C strings as lists of Char.  Results of the external
  libraries (ngtcp2 / nghttp3 / wolfSSL) that flow into the code are
  passed as explicit parameters ("oracle" inputs), constrained only by the
  contracts the libraries document.
-/

namespace QuicEcho

/-- STREAM_BUF_SIZE in the source: 64 * 1024 bytes of egress buffer per stream. -/
def STREAM_BUF_SIZE : Nat := 64 * 1024

/-- MAX_UDP_PAYLOAD in the source. -/
def MAX_UDP_PAYLOAD : Nat := 1200

/-- ngtcp2 error code returned by callbacks to signal callback failure
(value from the ngtcp2 header; the code only compares it, never computes with it). -/
def NGTCP2_ERR_CALLBACK_FAILURE : Int := -221

/-- nghttp3 error code meaning the stream to close was unknown to the engine
(value from the nghttp3 header; only compared against). -/
def NGHTTP3_ERR_STREAM_NOT_FOUND : Int := -106

/-- stream_type_t of the source. -/
inductive StreamType where
  | raw_echo
  | h3_request
  | wt_bidi
  | wt_uni
  | ws
deriving DecidableEq

/-- stream_data of the source.  The C struct holds a fixed 64 KiB array
`sendbuf` together with `sendlen`; here `sendbuf` is the list of the captured
bytes, so `sendbuf.length` plays the role of `sendlen`.  `method`, `path` and
`protocol` are the NUL-terminated char arrays, modelled as the exact char
lists stored before the terminator. -/
structure StreamData where
  stream_id : Int
  type : StreamType
  sendbuf : List Nat
  sendoff : Nat
  fin_received : Bool
  method : List Char
  path : List Char
  protocol : List Char
  wt_session_id : Int
deriving DecidableEq

/-- sendlen of the source: number of bytes captured in the egress buffer. -/
def StreamData.sendlen (s : StreamData) : Nat := s.sendbuf.length

/-- A freshly calloc-ed stream record as produced by create_stream:
all fields zero (type 0 is STREAM_TYPE_RAW_ECHO) except wt_session_id,
which create_stream sets to -1. -/
def newStream (id : Int) : StreamData :=
  { stream_id := id, type := .raw_echo, sendbuf := [], sendoff := 0,
    fin_received := false, method := [], path := [], protocol := [],
    wt_session_id := -1 }

/-- find_stream of the source: walk the registry list, first id match wins. -/
def find_stream : List StreamData → Int → Option StreamData
  | [], _ => none
  | s :: rest, id => if s.stream_id = id then some s else find_stream rest id

/-- create_stream of the source: no-op if the id is present, otherwise a new
record is prepended (s->next = sc->streams; sc->streams = s). -/
def create_stream (streams : List StreamData) (id : Int) : List StreamData :=
  match find_stream streams id with
  | some _ => streams
  | none => newStream id :: streams

/-- remove_stream of the source: unlink the first record with the given id. -/
def remove_stream : List StreamData → Int → List StreamData
  | [], _ => []
  | s :: rest, id => if s.stream_id = id then rest else s :: remove_stream rest id

/-- Mutation through the pointer returned by find_stream: update the first
record with the given id, leave the rest alone. -/
def update_stream : List StreamData → Int → (StreamData → StreamData) → List StreamData
  | [], _, _ => []
  | s :: rest, id, f => if s.stream_id = id then f s :: rest else s :: update_stream rest id f

/-- proto_type_t of the source. -/
inductive Proto where
  | echo
  | h3
deriving DecidableEq

/-- The outbound side of the nghttp3 engine visible to write_streams: a queue
of (stream id, bytes) pairs that nghttp3_conn_writev_stream will hand out. -/
structure Engine where
  outq : List (Int × List Nat)
deriving DecidableEq

/-- server_conn of the source, restricted to the fields the claims are about,
extended with ghost history: recvLog (bytes delivered inbound per stream id),
sentLog (stream bytes handed to the transport per stream id), sentFin
(whether a FIN was handed to the transport on the id) and closedIds (stream
ids already closed; QUIC never reuses a stream id).  bidiCreditExt counts
calls of ngtcp2_conn_extend_max_streams_bidi(conn, 1). -/
structure SState where
  proto : Proto
  handshake_done : Bool
  engine : Option Engine
  streams : List StreamData
  wt_session_stream : Int
  last_error : Option Nat
  uniLeft : Nat
  nextUniId : Int
  bidiCreditExt : Nat
  closedIds : List Int
  recvLog : Int → List Nat
  sentLog : Int → List Nat
  sentFin : Int → Bool

/-- Append bytes to one entry of a per-stream ghost log. -/
def logAppend (f : Int → List Nat) (id : Int) (d : List Nat) : Int → List Nat :=
  fun j => if j = id then f j ++ d else f j

/-- Initial per-connection state as built by create_server_conn:
no streams, default (empty) last error, wt_session_stream = -1, handshake not
done.  `uniCredits` is the number of unidirectional stream credits the peer's
transport parameters allow, `p` the ALPN outcome.  Server-initiated
unidirectional streams get ids 3, 7, 11, ... -/
def initConn (p : Proto) (uniCredits : Nat) : SState :=
  { proto := p, handshake_done := false, engine := none, streams := [],
    wt_session_stream := -1, last_error := none, uniLeft := uniCredits,
    nextUniId := 3, bidiCreditExt := 0, closedIds := [],
    recvLog := fun _ => [], sentLog := fun _ => [], sentFin := fun _ => false }

/- ============================================================
   recv_stream_data_cb
   ============================================================ -/

/-- Raw-echo branch of recv_stream_data_cb (source lines 212-233): find or
create the stream (kind RAW_ECHO), copy min(datalen, STREAM_BUF_SIZE -
sendlen) bytes into the egress buffer, set fin_received on the FIN flag, and
extend the per-stream and connection flow-control windows by the full
datalen.  Returns (new registry, per-stream extension, connection extension). -/
def recv_stream_data_echo (streams : List StreamData) (id : Int)
    (data : List Nat) (fin : Bool) : List StreamData × Nat × Nat :=
  (update_stream (create_stream streams id) id (fun s =>
    { s with type := .raw_echo,
             sendbuf := s.sendbuf ++
               data.take (min data.length (STREAM_BUF_SIZE - s.sendbuf.length)),
             fin_received := s.fin_received || fin }),
   data.length, data.length)

/-- HTTP/3 branch of recv_stream_data_cb (source lines 192-210).
`nconsumed` is the value returned by nghttp3_conn_read_stream and
`inferredCode` the application error code
nghttp3_err_infer_quic_app_error_code derives from it (both are library
outputs, passed in as oracle parameters).  Returns the new state, the list of
per-stream window extensions, the list of connection window extensions, and
the callback return value. -/
def recv_stream_data_h3 (st : SState) (stream_id : Int) (nconsumed : Int)
    (inferredCode : Nat) : SState × List (Int × Nat) × List Nat × Int :=
  if nconsumed < 0 then
    ({ st with last_error := some inferredCode }, [], [],
     NGTCP2_ERR_CALLBACK_FAILURE)
  else
    (st, [(stream_id, nconsumed.toNat)], [nconsumed.toNat], 0)

/- ============================================================
   stream_open_cb / stream_close_cb
   ============================================================ -/

/-- stream_open_cb: in echo mode eagerly create the stream record; in h3 mode
defer to nghttp3's begin_headers. -/
def stream_open_cb (st : SState) (id : Int) : SState :=
  if st.proto = .echo then { st with streams := create_stream st.streams id }
  else st

/-- stream_close_cb (source lines 247-277).  `h3rv` is the value
nghttp3_conn_close_stream returned (0 when no engine is present, it is then
ignored) and `inferredCode` the application error code inferred from it.
On the success path the WebTransport session is cleared when it was this
stream, the record is removed from the registry, and the peer's bidi-stream
credit is extended by one. -/
def stream_close_cb (st : SState) (id : Int) (h3rv : Int) (inferredCode : Nat) :
    SState × Int :=
  if st.engine.isSome ∧ h3rv ≠ 0 ∧ h3rv ≠ NGHTTP3_ERR_STREAM_NOT_FOUND then
    ({ st with last_error := some inferredCode }, NGTCP2_ERR_CALLBACK_FAILURE)
  else
    ({ st with
        wt_session_stream :=
          if st.wt_session_stream = id then -1 else st.wt_session_stream,
        streams := remove_stream st.streams id,
        bidiCreditExt := st.bidiCreditExt + 1,
        closedIds := id :: st.closedIds }, 0)

/- ============================================================
   recv_datagram_cb
   ============================================================ -/

/-- Observable effects of recv_datagram_cb (source lines 328-361):
the list of writev_datagram calls (each a list of vectors, each vector a byte
list), the UDP datagrams sent, and the callback return value. -/
structure DatagramEcho where
  writevCalls : List (List (List Nat))
  udpDatagrams : List (List Nat)
  ret : Int
deriving DecidableEq

/-- recv_datagram_cb: build a single vector over the inbound payload, call
ngtcp2_conn_writev_datagram once with it; `nwrite` and `accepted` are that
call's outputs and `txpkt` the packet it serialized into txbuf.  The UDP
datagram is sent only when nwrite > 0 and accepted; the callback always
returns 0. -/
def recv_datagram_cb (payload : List Nat) (nwrite : Int) (accepted : Bool)
    (txpkt : List Nat) : DatagramEcho :=
  { writevCalls := [[payload]],
    udpDatagrams := if 0 < nwrite ∧ accepted then [txpkt] else [],
    ret := 0 }

/- ============================================================
   nghttp3 callbacks: h3_recv_data, h3_recv_header, h3_end_headers
   ============================================================ -/

/-- h3_recv_data (source lines 420-443): only WT-bidi and WebSocket streams
buffer inbound DATA bytes (bounded by the egress buffer), all others ignore
them; absent streams are not created. -/
def h3_recv_data (streams : List StreamData) (id : Int) (data : List Nat) :
    List StreamData :=
  match find_stream streams id with
  | none => streams
  | some s =>
    if s.type = .wt_bidi ∨ s.type = .ws then
      update_stream streams id (fun t =>
        let copy := min data.length (STREAM_BUF_SIZE - t.sendbuf.length)
        { t with sendbuf := t.sendbuf ++ data.take copy })
    else streams

/-- Header tokens recv_header dispatches on (NGHTTP3_QPACK_TOKEN__METHOD /
_PATH / _PROTOCOL, everything else is ignored). -/
inductive HToken where
  | method
  | path
  | protocol
  | other
deriving DecidableEq

/-- h3_recv_header (source lines 469-501): capture :method, :path and
:protocol into the stream record, truncating to the char array capacity minus
the NUL terminator (15, 255 and 31 chars).  Always returns 0. -/
def h3_recv_header (s : StreamData) (token : HToken) (value : List Char) :
    StreamData × Int :=
  match token with
  | .method => ({ s with method := value.take 15 }, 0)
  | .path => ({ s with path := value.take 255 }, 0)
  | .protocol => ({ s with protocol := value.take 31 }, 0)
  | .other => (s, 0)

/-- Header list of the helper submit_response (source lines 504-538):
a :status pseudo-header from the status code, then an optional content-type.
No body data provider is installed. -/
def submit_response (status : Nat) (content_type : Option (List Char)) :
    List (List Char × List Char) :=
  (":status".data, (toString status).data) ::
    (match content_type with
     | some ct => [("content-type".data, ct)]
     | none => [])

/-- h3_end_headers (source lines 540-612): dispatch on the captured
pseudo-headers.  Returns the updated stream record, the new value of the
connection's wt_session_stream, and the response header list submitted. -/
def h3_end_headers (wt_session_stream : Int) (stream_id : Int)
    (s : StreamData) : StreamData × Int × List (List Char × List Char) :=
  if s.method = "CONNECT".data ∧ s.protocol = "webtransport".data then
    ({ s with type := .wt_bidi }, stream_id,
     [(":status".data, "200".data),
      ("sec-webtransport-http3-draft".data, "draft02".data)])
  else if s.method = "CONNECT".data ∧ s.protocol = "websocket".data then
    ({ s with type := .ws }, wt_session_stream,
     [(":status".data, "200".data)])
  else if s.method = "GET".data then
    if s.path = "/.well-known/webtransport".data ∨ s.path = "/".data then
      (s, wt_session_stream, submit_response 200 (some "text/plain".data))
    else
      (s, wt_session_stream, submit_response 404 (some "text/plain".data))
  else
    (s, wt_session_stream, submit_response 405 none)

/- ============================================================
   setup_h3_connection / handle_packet
   ============================================================ -/

/-- Modelled from the spec: bytes nghttp3 queues on the server's control
stream after setup, per section 4.4 — the unidirectional stream type 0x00
followed by a SETTINGS frame advertising qpack_max_dtable_capacity=4096,
qpack_blocked_streams=100, enable_connect_protocol=1 and h3_datagram=1.
The exact wire bytes are produced inside nghttp3 (not part of src/); the
development only relies on this list being nonempty and queued on a stream
the peer never wrote to. -/
def settingsBytes : List Nat :=
  [0x00, 0x04, 0x0b, 0x01, 0x44, 0x10, 0x07, 0x64, 0x08, 0x01, 0x33, 0x01]

/-- Modelled from the spec: first byte of the QPACK encoder stream (stream
type 0x02, RFC 9204), queued by nghttp3 after bind_qpack_streams. -/
def qencBytes : List Nat := [0x02]

/-- Modelled from the spec: first byte of the QPACK decoder stream (stream
type 0x03, RFC 9204), queued by nghttp3 after bind_qpack_streams. -/
def qdecBytes : List Nat := [0x03]

/-- setup_h3_connection (source lines 739-816): no-op success when the engine
already exists; failure (-1) when the peer allows fewer than 3 unidirectional
stream credits; otherwise the engine is created, three unidirectional streams
are opened (control + QPACK encoder + decoder) and their initial bytes are
queued.  The library calls on the success path (conn_server_new,
open_uni_stream, bind_control_stream, bind_qpack_streams) are modelled as
succeeding, per the external-collaborator contracts of spec section 6. -/
def setup_h3_connection (st : SState) : SState × Int :=
  if st.engine.isSome then (st, 0)
  else if st.uniLeft < 3 then (st, -1)
  else
    ({ st with
        engine := some { outq := [(st.nextUniId, settingsBytes),
                                  (st.nextUniId + 4, qencBytes),
                                  (st.nextUniId + 8, qdecBytes)] },
        uniLeft := st.uniLeft - 3,
        nextUniId := st.nextUniId + 12 }, 0)

/-- The post-read fragment of handle_packet (source lines 1145-1153): once the
handshake is done, ALPN is h3 and no engine exists yet, run
setup_h3_connection; a failure is only logged (fprintf) and processing
continues with write_streams — the state is left untouched. -/
def handle_packet_h3_setup (st : SState) : SState :=
  if st.handshake_done = true ∧ st.proto = .h3 ∧ st.engine.isNone then
    (setup_h3_connection st).1
  else st

/- ============================================================
   write_streams (the write scheduler)
   ============================================================ -/

/-- Pending-data test of the echo branch of write_streams:
s->sendoff < s->sendlen || s->fin_received. -/
def eligible (s : StreamData) : Bool :=
  decide (s.sendoff < s.sendbuf.length) || s.fin_received

/-- Stream selection of the echo branch of write_streams: walk the registry
once, first stream with pending data or pending FIN wins. -/
def pick : List StreamData → Option StreamData
  | [] => none
  | s :: rest => if eligible s then some s else pick rest

/- ============================================================
   The per-connection transition system
   ============================================================ -/

/-- Events driving one connection: handshake completion, ngtcp2 stream-open,
inbound stream data in the raw-echo path, inbound WT/WS DATA delivered by the
engine, HTTP/3 setup, one iteration of the write scheduler in echo mode
(`n` = the ndatalen the transport consumed), one iteration in h3 mode
(the engine hands out its next queued vector), and transport stream close. -/
inductive Ev where
  | hsDone
  | openStream (id : Int)
  | recvEcho (id : Int) (data : List Nat) (fin : Bool)
  | recvWT (id : Int) (data : List Nat)
  | h3setup
  | schedEcho (n : Nat)
  | schedH3
  | closeStream (id : Int)
deriving DecidableEq

/-- Validity of an event in a state: the conditions under which the
corresponding code path runs, plus the documented library contracts
(the transport consumes at most the offered vector; data never arrives on a
closed stream id — QUIC stream ids are never reused). -/
def evOk (st : SState) (e : Ev) : Bool :=
  match e with
  | .hsDone => true
  | .openStream id => decide (¬ id ∈ st.closedIds)
  | .recvEcho id _ _ =>
      !(decide (st.proto = .h3) && st.engine.isSome) && decide (¬ id ∈ st.closedIds)
  | .recvWT id _ =>
      decide (st.proto = .h3) && st.engine.isSome && decide (¬ id ∈ st.closedIds)
  | .h3setup =>
      decide (st.proto = .h3) && st.handshake_done && st.engine.isNone
  | .schedEcho n =>
      !(decide (st.proto = .h3) && st.engine.isSome) &&
      (match pick st.streams with
       | some s => decide (n ≤ s.sendbuf.length - s.sendoff)
       | none => decide (n = 0))
  | .schedH3 => decide (st.proto = .h3) && st.engine.isSome
  | .closeStream id => (find_stream st.streams id).isSome

/-- One echo-mode iteration of write_streams: pick the first stream with
pending data or FIN, offer sendbuf[sendoff..sendlen) with the FIN flag
attached only when fin_received and all captured bytes are delivered; the
transport consumes n bytes and sendoff advances by n.  The consumed bytes
(and FIN, when flagged) are recorded in the ghost send log. -/
def stepSchedEcho (st : SState) (n : Nat) : SState :=
  match pick st.streams with
  | none => st
  | some s =>
    { st with
        streams := update_stream st.streams s.stream_id
          (fun t => { t with sendoff := t.sendoff + n }),
        sentLog := logAppend st.sentLog s.stream_id
          ((s.sendbuf.drop s.sendoff).take n),
        sentFin := fun j =>
          if j = s.stream_id then
            st.sentFin j || (s.fin_received && decide (s.sendbuf.length ≤ s.sendoff))
          else st.sentFin j }

/-- One h3-mode iteration of write_streams: nghttp3_conn_writev_stream hands
out the next queued (stream, bytes) pair, the packet is written and sent, and
the engine's write offset advances past it. -/
def stepSchedH3 (st : SState) : SState :=
  match st.engine with
  | none => st
  | some eng =>
    match eng.outq with
    | [] => st
    | (id, bytes) :: rest =>
      { st with engine := some { outq := rest },
                sentLog := logAppend st.sentLog id bytes }

/-- The transition function: each event applies the corresponding callback or
scheduler iteration and records ghost history. -/
def step (st : SState) (e : Ev) : SState :=
  match e with
  | .hsDone => { st with handshake_done := true }
  | .openStream id => stream_open_cb st id
  | .recvEcho id data fin =>
      { st with streams := (recv_stream_data_echo st.streams id data fin).1,
                recvLog := logAppend st.recvLog id data }
  | .recvWT id data =>
      { st with streams := h3_recv_data st.streams id data,
                recvLog := logAppend st.recvLog id data }
  | .h3setup => (setup_h3_connection st).1
  | .schedEcho n => stepSchedEcho st n
  | .schedH3 => stepSchedH3 st
  | .closeStream id => (stream_close_cb st id 0 0).1

/-- Run a sequence of events. -/
def run (st : SState) (es : List Ev) : SState := List.foldl step st es

/-- A trace is valid when each event is valid in the state it fires in. -/
def okTrace : SState → List Ev → Bool
  | _, [] => true
  | st, e :: es => evOk st e && okTrace (step st e) es

/-- Events the server performs on its own (scheduler iterations and
transport-initiated closes), with no further input from the peer. -/
def serverOnly (es : List Ev) : Bool :=
  es.all fun e =>
    match e with
    | .schedEcho _ => true
    | .closeStream _ => true
    | _ => false

end QuicEcho

namespace QuicEcho

/- ============================================================
   Registry helper lemmas
   ============================================================ -/

/-- Registry well-formedness: no two records share a stream id. -/
def DistinctIds (l : List StreamData) : Prop :=
  (l.map StreamData.stream_id).Nodup

lemma find_stream_eq_none {l : List StreamData} {id : Int}
    (h : ∀ s ∈ l, s.stream_id ≠ id) : find_stream l id = none := by
  induction l with
  | nil => rfl
  | cons s rest ih =>
    simp only [find_stream]
    rw [if_neg (h s (by simp))]
    exact ih fun t ht => h t (by simp [ht])

lemma find_stream_none_forall {l : List StreamData} {id : Int}
    (h : find_stream l id = none) : ∀ s ∈ l, s.stream_id ≠ id := by
  induction l with
  | nil => simp
  | cons s rest ih =>
    simp only [find_stream] at h
    by_cases hs : s.stream_id = id
    · rw [if_pos hs] at h; cases h
    · rw [if_neg hs] at h
      intro t ht
      rcases List.mem_cons.mp ht with h1 | h1
      · subst h1; exact hs
      · exact ih h t h1

lemma find_stream_mem {l : List StreamData} {id : Int} {s : StreamData}
    (h : find_stream l id = some s) : s ∈ l ∧ s.stream_id = id := by
  induction l with
  | nil => cases h
  | cons t rest ih =>
    simp only [find_stream] at h
    by_cases ht : t.stream_id = id
    · rw [if_pos ht] at h
      cases h
      exact ⟨by simp, ht⟩
    · rw [if_neg ht] at h
      obtain ⟨h1, h2⟩ := ih h
      exact ⟨by simp [h1], h2⟩

lemma mem_find_stream {l : List StreamData} {s : StreamData}
    (hd : DistinctIds l) (hs : s ∈ l) : find_stream l s.stream_id = some s := by
  induction l with
  | nil => cases hs
  | cons t rest ih =>
    simp only [DistinctIds, List.map_cons, List.nodup_cons] at hd
    rcases List.mem_cons.mp hs with h1 | h1
    · subst h1
      simp [find_stream]
    · simp only [find_stream]
      by_cases ht : t.stream_id = s.stream_id
      · exfalso
        exact hd.1 (ht ▸ List.mem_map_of_mem StreamData.stream_id h1)
      · rw [if_neg ht]
        exact ih hd.2 h1

lemma ids_update_stream (l : List StreamData) (id : Int) (f : StreamData → StreamData)
    (hf : ∀ t, (f t).stream_id = t.stream_id) :
    (update_stream l id f).map StreamData.stream_id = l.map StreamData.stream_id := by
  induction l with
  | nil => rfl
  | cons s rest ih =>
    simp only [update_stream]
    by_cases hs : s.stream_id = id
    · rw [if_pos hs]
      simp [hf]
    · rw [if_neg hs]
      simp [ih]

lemma distinct_update_stream {l : List StreamData} {id : Int} {f : StreamData → StreamData}
    (hf : ∀ t, (f t).stream_id = t.stream_id) (hd : DistinctIds l) :
    DistinctIds (update_stream l id f) := by
  unfold DistinctIds
  rw [ids_update_stream l id f hf]
  exact hd

lemma find_update_stream_self {l : List StreamData} {id : Int} {f : StreamData → StreamData}
    (hf : ∀ t, (f t).stream_id = t.stream_id) :
    find_stream (update_stream l id f) id = (find_stream l id).map f := by
  induction l with
  | nil => rfl
  | cons s rest ih =>
    simp only [update_stream, find_stream]
    by_cases hs : s.stream_id = id
    · rw [if_pos hs]
      simp [find_stream, hf, hs]
    · rw [if_neg hs]
      simp [find_stream, hs, ih]

lemma find_update_stream_other {l : List StreamData} {id j : Int} {f : StreamData → StreamData}
    (hf : ∀ t, (f t).stream_id = t.stream_id) (hne : j ≠ id) :
    find_stream (update_stream l id f) j = find_stream l j := by
  induction l with
  | nil => rfl
  | cons s rest ih =>
    simp only [update_stream, find_stream]
    by_cases hs : s.stream_id = id
    · rw [if_pos hs]
      simp only [find_stream, hf]
      rw [if_neg (by rw [hs]; exact fun h => hne h.symm),
          if_neg (by rw [hs]; exact fun h => hne h.symm)]
    · rw [if_neg hs]
      simp only [find_stream]
      by_cases hj : s.stream_id = j
      · rw [if_pos hj, if_pos hj]
      · rw [if_neg hj, if_neg hj]
        exact ih

lemma update_stream_absent {l : List StreamData} {id : Int} {f : StreamData → StreamData}
    (h : find_stream l id = none) : update_stream l id f = l := by
  induction l with
  | nil => rfl
  | cons s rest ih =>
    simp only [find_stream] at h
    by_cases hs : s.stream_id = id
    · rw [if_pos hs] at h; cases h
    · rw [if_neg hs] at h
      simp only [update_stream]
      rw [if_neg hs, ih h]

lemma remove_stream_sublist (l : List StreamData) (id : Int) :
    (remove_stream l id).Sublist l := by
  induction l with
  | nil => exact List.Sublist.refl _
  | cons s rest ih =>
    simp only [remove_stream]
    by_cases hs : s.stream_id = id
    · rw [if_pos hs]
      exact List.sublist_cons_of_sublist s (List.Sublist.refl _)
    · rw [if_neg hs]
      exact List.Sublist.cons₂ s ih

lemma distinct_remove_stream {l : List StreamData} {id : Int}
    (hd : DistinctIds l) : DistinctIds (remove_stream l id) := by
  exact List.Nodup.sublist (List.Sublist.map _ (remove_stream_sublist l id)) hd

lemma find_remove_stream_self {l : List StreamData} {id : Int}
    (hd : DistinctIds l) : find_stream (remove_stream l id) id = none := by
  induction l with
  | nil => rfl
  | cons s rest ih =>
    simp only [DistinctIds, List.map_cons, List.nodup_cons] at hd
    simp only [remove_stream]
    by_cases hs : s.stream_id = id
    · rw [if_pos hs]
      apply find_stream_eq_none
      intro t ht hti
      exact hd.1 (by rw [hs, ← hti]; exact List.mem_map_of_mem StreamData.stream_id ht)
    · rw [if_neg hs]
      simp only [find_stream]
      rw [if_neg hs]
      exact ih hd.2

lemma find_remove_stream_other {l : List StreamData} {id j : Int} (hne : j ≠ id) :
    find_stream (remove_stream l id) j = find_stream l j := by
  induction l with
  | nil => rfl
  | cons s rest ih =>
    simp only [remove_stream, find_stream]
    by_cases hs : s.stream_id = id
    · rw [if_pos hs, if_neg (by rw [hs]; exact fun h => hne h.symm)]
    · rw [if_neg hs]
      simp only [find_stream]
      by_cases hj : s.stream_id = j
      · rw [if_pos hj, if_pos hj]
      · rw [if_neg hj, if_neg hj]
        exact ih

lemma pick_mem {l : List StreamData} {s : StreamData} (h : pick l = some s) :
    s ∈ l ∧ eligible s = true := by
  induction l with
  | nil => cases h
  | cons t rest ih =>
    simp only [pick] at h
    by_cases ht : eligible t
    · rw [if_pos ht] at h
      cases h
      exact ⟨by simp, ht⟩
    · rw [if_neg ht] at h
      obtain ⟨h1, h2⟩ := ih h
      exact ⟨by simp [h1], h2⟩

lemma pick_append {p l : List StreamData} (h : ∀ s ∈ p, eligible s = false) :
    pick (p ++ l) = pick l := by
  induction p with
  | nil => rfl
  | cons s rest ih =>
    simp only [List.cons_append, pick]
    rw [if_neg (by simp [h s (by simp)])]
    exact ih fun t ht => h t (by simp [ht])

lemma update_stream_split {p r : List StreamData} {s : StreamData} {id : Int}
    {f : StreamData → StreamData}
    (hp : ∀ x ∈ p, x.stream_id ≠ id) (hs : s.stream_id = id) :
    update_stream (p ++ s :: r) id f = p ++ f s :: r := by
  induction p with
  | nil => simp [update_stream, hs]
  | cons t rest ih =>
    simp only [List.cons_append, update_stream]
    rw [if_neg (hp t (by simp))]
    exact congrArg (fun l => t :: l) (ih fun x hx => hp x (by simp [hx]))

lemma remove_stream_split {p r : List StreamData} {s : StreamData} {id : Int}
    (hp : ∀ x ∈ p, x.stream_id ≠ id) (hs : s.stream_id = id) :
    remove_stream (p ++ s :: r) id = p ++ r := by
  induction p with
  | nil => simp [remove_stream, hs]
  | cons t rest ih =>
    simp only [List.cons_append, remove_stream]
    rw [if_neg (hp t (by simp))]
    exact congrArg (fun l => t :: l) (ih fun x hx => hp x (by simp [hx]))

end QuicEcho

namespace QuicEcho

/- ============================================================
   Membership lemmas and small take/append facts
   ============================================================ -/

lemma mem_update_stream {l : List StreamData} {id : Int} {f : StreamData → StreamData}
    {x : StreamData} (hx : x ∈ update_stream l id f) :
    x ∈ l ∨ ∃ t, t ∈ l ∧ t.stream_id = id ∧ x = f t := by
  induction l with
  | nil => cases hx
  | cons s rest ih =>
    simp only [update_stream] at hx
    by_cases hs : s.stream_id = id
    · rw [if_pos hs] at hx
      rcases List.mem_cons.mp hx with h1 | h1
      · exact Or.inr ⟨s, by simp, hs, h1⟩
      · exact Or.inl (by simp [h1])
    · rw [if_neg hs] at hx
      rcases List.mem_cons.mp hx with h1 | h1
      · exact Or.inl (by simp [h1])
      · rcases ih h1 with h2 | ⟨t, ht, hti, hxt⟩
        · exact Or.inl (by simp [h2])
        · exact Or.inr ⟨t, by simp [ht], hti, hxt⟩

lemma mem_create_stream {l : List StreamData} {id : Int} {x : StreamData}
    (hx : x ∈ create_stream l id) : x ∈ l ∨ x = newStream id := by
  unfold create_stream at hx
  cases h : find_stream l id with
  | some s => rw [h] at hx; exact Or.inl hx
  | none =>
    rw [h] at hx
    rcases List.mem_cons.mp hx with h1 | h1
    · exact Or.inr h1
    · exact Or.inl h1

lemma distinct_create_stream {l : List StreamData} {id : Int}
    (hd : DistinctIds l) : DistinctIds (create_stream l id) := by
  unfold create_stream
  cases h : find_stream l id with
  | some s => exact hd
  | none =>
    simp only [DistinctIds, List.map_cons, List.nodup_cons]
    refine ⟨?_, hd⟩
    intro hmem
    obtain ⟨t, ht, hti⟩ := List.mem_map.mp hmem
    exact find_stream_none_forall h t ht hti

lemma distinct_mem_unique {l : List StreamData} {s t : StreamData}
    (hd : DistinctIds l) (hs : s ∈ l) (ht : t ∈ l)
    (hid : t.stream_id = s.stream_id) : t = s := by
  have h1 := mem_find_stream hd hs
  have h2 := mem_find_stream hd ht
  rw [hid] at h2
  rw [h1] at h2
  exact (Option.some_inj.mp h2).symm

lemma take_min_self (l : List Nat) (n : Nat) : l.take (min l.length n) = l.take n := by
  rw [List.take_eq_take]; omega

lemma take_self_length (l : List Nat) (m : Nat) : l.take ((l.take m).length) = l.take m := by
  rw [List.length_take, List.take_eq_take]; omega

/- ============================================================
   The registry invariant of claim C4: distinct ids and buffer bounds
   ============================================================ -/

/-- Buffer bounds for every stream in the registry:
0 ≤ sendoff ≤ sendlen ≤ STREAM_BUF_SIZE (the lower bound is implicit in Nat). -/
def Bounds (st : SState) : Prop :=
  ∀ s ∈ st.streams, s.sendoff ≤ s.sendbuf.length ∧ s.sendbuf.length ≤ STREAM_BUF_SIZE

/-- The structural registry invariant. -/
def Inv (st : SState) : Prop := DistinctIds st.streams ∧ Bounds st

lemma newStream_bounds (id : Int) :
    (newStream id).sendoff ≤ (newStream id).sendbuf.length ∧
    (newStream id).sendbuf.length ≤ STREAM_BUF_SIZE := by
  simp [newStream, STREAM_BUF_SIZE]

/-- Appending at most the remaining capacity keeps the buffer within bounds. -/
lemma append_capacity_bounds {buf : List Nat} {off : Nat} (data : List Nat)
    (h1 : off ≤ buf.length) (h2 : buf.length ≤ STREAM_BUF_SIZE) :
    off ≤ (buf ++ data.take (min data.length (STREAM_BUF_SIZE - buf.length))).length ∧
    (buf ++ data.take (min data.length (STREAM_BUF_SIZE - buf.length))).length ≤
      STREAM_BUF_SIZE := by
  constructor
  · calc off ≤ buf.length := h1
      _ ≤ _ := by simp
  · rw [List.length_append, List.length_take]
    omega

lemma inv_step {st : SState} {e : Ev} (hok : evOk st e = true) (hinv : Inv st) :
    Inv (step st e) := by
  obtain ⟨hd, hb⟩ := hinv
  cases e with
  | hsDone => exact ⟨hd, hb⟩
  | openStream id =>
    simp only [step, stream_open_cb]
    by_cases hp : st.proto = .echo
    · rw [if_pos hp]
      refine ⟨distinct_create_stream hd, ?_⟩
      intro s hs
      rcases mem_create_stream hs with h1 | h1
      · exact hb s h1
      · rw [h1]; exact newStream_bounds id
    · rw [if_neg hp]; exact ⟨hd, hb⟩
  | recvEcho id data fin =>
    simp only [step, recv_stream_data_echo]
    constructor
    · exact distinct_update_stream (fun t => rfl) (distinct_create_stream hd)
    · intro s hs
      rcases mem_update_stream hs with h1 | ⟨t, ht, hti, hst⟩
      · rcases mem_create_stream h1 with h2 | h2
        · exact hb s h2
        · rw [h2]; exact newStream_bounds id
      · have htb : t.sendoff ≤ t.sendbuf.length ∧ t.sendbuf.length ≤ STREAM_BUF_SIZE := by
          rcases mem_create_stream ht with h2 | h2
          · exact hb t h2
          · rw [h2]; exact newStream_bounds id
        rw [hst]
        exact append_capacity_bounds data htb.1 htb.2
  | recvWT id data =>
    simp only [step, h3_recv_data]
    cases hfind : find_stream st.streams id with
    | none => exact ⟨hd, hb⟩
    | some s =>
      dsimp only
      by_cases htype : s.type = .wt_bidi ∨ s.type = .ws
      · rw [if_pos htype]
        constructor
        · exact distinct_update_stream (fun t => rfl) hd
        · intro x hx
          rcases mem_update_stream hx with h1 | ⟨t, ht, hti, hxt⟩
          · exact hb x h1
          · have htb := hb t ht
            rw [hxt]
            exact append_capacity_bounds data htb.1 htb.2
      · rw [if_neg htype]; exact ⟨hd, hb⟩
  | h3setup =>
    simp only [step, setup_h3_connection]
    by_cases h1 : st.engine.isSome
    · rw [if_pos h1]; exact ⟨hd, hb⟩
    · rw [if_neg h1]
      by_cases h2 : st.uniLeft < 3
      · rw [if_pos h2]; exact ⟨hd, hb⟩
      · rw [if_neg h2]; exact ⟨hd, hb⟩
  | schedEcho n =>
    simp only [step, stepSchedEcho]
    cases hpick : pick st.streams with
    | none => exact ⟨hd, hb⟩
    | some s =>
      simp only [evOk, hpick] at hok
      have hn : n ≤ s.sendbuf.length - s.sendoff := by
        have := (Bool.and_eq_true _ _).mp hok
        exact of_decide_eq_true this.2
      obtain ⟨hsmem, _⟩ := pick_mem hpick
      constructor
      · exact distinct_update_stream (fun t => rfl) hd
      · intro x hx
        rcases mem_update_stream hx with h1 | ⟨t, ht, hti, hxt⟩
        · exact hb x h1
        · have hts : t = s := distinct_mem_unique hd hsmem ht hti
          subst hts
          have htb := hb t ht
          rw [hxt]
          refine ⟨?_, htb.2⟩
          simp only []
          omega
  | schedH3 =>
    simp only [step, stepSchedH3]
    cases st.engine with
    | none => exact ⟨hd, hb⟩
    | some eng =>
      dsimp only
      cases eng.outq with
      | nil => exact ⟨hd, hb⟩
      | cons p rest =>
        obtain ⟨pid, pbytes⟩ := p
        exact ⟨hd, hb⟩
  | closeStream id =>
    simp only [step, stream_close_cb]
    rw [if_neg (by simp)]
    constructor
    · exact distinct_remove_stream hd
    · intro s hs
      exact hb s ((remove_stream_sublist st.streams id).mem hs)

lemma inv_run {st : SState} {es : List Ev} (hok : okTrace st es = true)
    (hinv : Inv st) : Inv (run st es) := by
  induction es generalizing st with
  | nil => exact hinv
  | cons e rest ih =>
    simp only [okTrace, Bool.and_eq_true] at hok
    exact ih hok.2 (inv_step hok.1 hinv)

lemma inv_init (p : Proto) (u : Nat) : Inv (initConn p u) := by
  constructor
  · simp [DistinctIds, initConn]
  · intro s hs
    simp [initConn] at hs

end QuicEcho


namespace QuicEcho

/- ============================================================
   The echo-mode ghost invariant: what the registry buffers and the
   send log contain, in terms of the receive log
   ============================================================ -/

/-- One list is an initial segment of another (stated with take so that it
stays decidable on concrete lists). -/
def PrefOf (a b : List Nat) : Prop := b.take a.length = a

lemma prefOf_append {a b : List Nat} (d : List Nat) (h : PrefOf a b) :
    PrefOf a (b ++ d) := by
  unfold PrefOf at h ⊢
  have hlen : a.length ≤ b.length := by
    have := congrArg List.length h
    rw [List.length_take] at this
    omega
  rw [List.take_append_of_le_length hlen]
  exact h

lemma prefOf_take (b : List Nat) (m : Nat) : PrefOf (b.take m) b :=
  take_self_length b m

lemma prefOf_nil (b : List Nat) : PrefOf [] b := rfl

lemma find_stream_cons_self {s : StreamData} {l : List StreamData} {id : Int}
    (h : s.stream_id = id) : find_stream (s :: l) id = some s := by
  simp [find_stream, h]

lemma find_stream_cons_other {s : StreamData} {l : List StreamData} {id : Int}
    (h : s.stream_id ≠ id) : find_stream (s :: l) id = find_stream l id := by
  simp [find_stream, h]

lemma find_update_stream_eq {l : List StreamData} {id : Int}
    {f : StreamData → StreamData} {s : StreamData}
    (hf : ∀ t, (f t).stream_id = t.stream_id)
    (h : find_stream l id = some s) :
    find_stream (update_stream l id f) id = some (f s) := by
  rw [find_update_stream_self hf, h]
  rfl

/-- Filling the egress buffer greedily up to capacity computes the
64 KiB-truncation of the total received bytes. -/
lemma buffered_take (R data : List Nat) :
    R.take STREAM_BUF_SIZE ++
      data.take (min data.length (STREAM_BUF_SIZE - (R.take STREAM_BUF_SIZE).length)) =
    (R ++ data).take STREAM_BUF_SIZE := by
  rw [List.take_append_eq_append_take, List.length_take]
  congr 1
  rw [List.take_eq_take]
  omega

/-- No registered stream has a closed id. -/
def notClosed (streams : List StreamData) (closed : List Int) : Prop :=
  ∀ s ∈ streams, ¬ s.stream_id ∈ closed

/-- Per-stream ghost relation in echo mode: a registered stream's egress
buffer holds exactly the 64 KiB-truncation of all bytes received on its id,
and the bytes already handed to the transport are exactly the first sendoff
of them; ids that were never seen (and never closed) have empty logs. -/
def echoStreamOkL (streams : List StreamData) (closed : List Int)
    (recvLog sentLog : Int → List Nat) (id : Int) : Prop :=
  (∀ s, find_stream streams id = some s →
      s.sendbuf = (recvLog id).take STREAM_BUF_SIZE ∧
      sentLog id = s.sendbuf.take s.sendoff) ∧
  (find_stream streams id = none → ¬ id ∈ closed →
      recvLog id = [] ∧ sentLog id = [])

/-- Log relations after creating a fresh stream record for an unseen id. -/
lemma created_streamOk (streams0 : List StreamData) (closed : List Int)
    (recvLog sentLog : Int → List Nat) (id : Int)
    (hrl : recvLog id = []) (hsl : sentLog id = [])
    (hso : ∀ j, echoStreamOkL streams0 closed recvLog sentLog j) :
    ∀ j, echoStreamOkL (newStream id :: streams0) closed recvLog sentLog j := by
  intro j
  by_cases hji : j = id
  · have h1 : find_stream (newStream id :: streams0) j = some (newStream id) := by
      rw [hji]
      exact find_stream_cons_self rfl
    constructor
    · intro x hx
      rw [h1] at hx
      injection hx with hx
      subst hx
      constructor
      · rw [hji, hrl]
        rfl
      · rw [hji, hsl]
        rfl
    · intro hnone
      rw [h1] at hnone
      simp at hnone
  · have h1 : find_stream (newStream id :: streams0) j = find_stream streams0 j :=
      find_stream_cons_other (fun h => hji (by rw [← h]; rfl))
    constructor
    · intro x hx
      rw [h1] at hx
      exact (hso j).1 x hx
    · intro hnone hjc
      rw [h1] at hnone
      exact (hso j).2 hnone hjc

/-- Log relations after the raw-echo receive callback buffers new bytes. -/
lemma recv_echo_streamOk (streams0 streamsC : List StreamData) (closed : List Int)
    (recvLog sentLog : Int → List Nat) (id : Int) (data : List Nat) (fin : Bool)
    (s0 : StreamData)
    (hfindC : find_stream streamsC id = some s0)
    (hOther : ∀ j, j ≠ id → find_stream streamsC j = find_stream streams0 j)
    (hbuf0 : s0.sendbuf = (recvLog id).take STREAM_BUF_SIZE)
    (hsl0 : sentLog id = s0.sendbuf.take s0.sendoff)
    (hbnd0 : s0.sendoff ≤ s0.sendbuf.length)
    (hso : ∀ j, echoStreamOkL streams0 closed recvLog sentLog j) :
    ∀ j, echoStreamOkL
      (update_stream streamsC id (fun t =>
        { t with
            type := .raw_echo,
            sendbuf := t.sendbuf ++
              data.take (min data.length (STREAM_BUF_SIZE - t.sendbuf.length)),
            fin_received := t.fin_received || fin }))
      closed (logAppend recvLog id data) sentLog j := by
  intro j
  by_cases hji : j = id
  · have h1 : find_stream (update_stream streamsC id (fun t =>
        { t with
            type := .raw_echo,
            sendbuf := t.sendbuf ++
              data.take (min data.length (STREAM_BUF_SIZE - t.sendbuf.length)),
            fin_received := t.fin_received || fin })) j =
        some ({ s0 with
            type := .raw_echo,
            sendbuf := s0.sendbuf ++
              data.take (min data.length (STREAM_BUF_SIZE - s0.sendbuf.length)),
            fin_received := s0.fin_received || fin }) := by
      rw [hji]
      exact find_update_stream_eq (fun t => rfl) hfindC
    have hlg : logAppend recvLog id data j = recvLog id ++ data := by
      rw [hji]
      simp [logAppend]
    constructor
    · intro x hx
      rw [h1] at hx
      injection hx with hx
      subst hx
      constructor
      · show s0.sendbuf ++
            data.take (min data.length (STREAM_BUF_SIZE - s0.sendbuf.length)) = _
        rw [hlg, hbuf0]
        exact buffered_take (recvLog id) data
      · show sentLog j = (s0.sendbuf ++
            data.take (min data.length (STREAM_BUF_SIZE - s0.sendbuf.length))).take
              s0.sendoff
        rw [hji, hsl0]
        exact (List.take_append_of_le_length hbnd0).symm
    · intro hnone
      rw [h1] at hnone
      simp at hnone
  · have h0 : find_stream (update_stream streamsC id (fun t =>
        { t with
            type := .raw_echo,
            sendbuf := t.sendbuf ++
              data.take (min data.length (STREAM_BUF_SIZE - t.sendbuf.length)),
            fin_received := t.fin_received || fin })) j = find_stream streamsC j := by
      exact find_update_stream_other (fun t => rfl) hji
    have h1 := h0.trans (hOther j hji)
    have hlg : logAppend recvLog id data j = recvLog j := by
      simp [logAppend, hji]
    constructor
    · intro x hx
      rw [h1] at hx
      rw [hlg]
      exact (hso j).1 x hx
    · intro hnone hjc
      rw [h1] at hnone
      rw [hlg]
      exact (hso j).2 hnone hjc

/-- Log relations after one echo write-scheduler advance of sendoff. -/
lemma sched_streamOk (streams0 : List StreamData) (closed : List Int)
    (recvLog sentLog : Int → List Nat) (s0 : StreamData) (n : Nat)
    (hfind : find_stream streams0 s0.stream_id = some s0)
    (hbuf0 : s0.sendbuf = (recvLog s0.stream_id).take STREAM_BUF_SIZE)
    (hsl0 : sentLog s0.stream_id = s0.sendbuf.take s0.sendoff)
    (hso : ∀ j, echoStreamOkL streams0 closed recvLog sentLog j) :
    ∀ j, echoStreamOkL
      (update_stream streams0 s0.stream_id
        (fun t => { t with sendoff := t.sendoff + n }))
      closed recvLog
      (logAppend sentLog s0.stream_id ((s0.sendbuf.drop s0.sendoff).take n)) j := by
  intro j
  by_cases hji : j = s0.stream_id
  · have h1 : find_stream (update_stream streams0 s0.stream_id
        (fun t => { t with sendoff := t.sendoff + n })) j =
        some ({ s0 with sendoff := s0.sendoff + n }) := by
      rw [hji]
      exact find_update_stream_eq (fun t => rfl) hfind
    have hlg : logAppend sentLog s0.stream_id ((s0.sendbuf.drop s0.sendoff).take n) j =
        sentLog s0.stream_id ++ (s0.sendbuf.drop s0.sendoff).take n := by
      rw [hji]
      simp [logAppend]
    constructor
    · intro x hx
      rw [h1] at hx
      injection hx with hx
      subst hx
      constructor
      · show s0.sendbuf = _
        rw [hji]
        exact hbuf0
      · show logAppend sentLog s0.stream_id ((s0.sendbuf.drop s0.sendoff).take n) j =
            s0.sendbuf.take (s0.sendoff + n)
        rw [hlg, hsl0]
        exact (List.take_add s0.sendbuf s0.sendoff n).symm
    · intro hnone
      rw [h1] at hnone
      simp at hnone
  · have h1 : find_stream (update_stream streams0 s0.stream_id
        (fun t => { t with sendoff := t.sendoff + n })) j = find_stream streams0 j :=
      find_update_stream_other (fun t => rfl) hji
    have hlg : logAppend sentLog s0.stream_id ((s0.sendbuf.drop s0.sendoff).take n) j =
        sentLog j := by
      simp [logAppend, hji]
    constructor
    · intro x hx
      rw [h1] at hx
      rw [hlg]
      exact (hso j).1 x hx
    · intro hnone hjc
      rw [h1] at hnone
      rw [hlg]
      exact (hso j).2 hnone hjc

end QuicEcho

namespace QuicEcho

/-- The full echo-mode invariant. -/
def EchoInv (st : SState) : Prop :=
  st.proto = .echo ∧ st.engine = none ∧ Inv st ∧
  notClosed st.streams st.closedIds ∧
  (∀ id, echoStreamOkL st.streams st.closedIds st.recvLog st.sentLog id) ∧
  (∀ id, PrefOf (st.sentLog id) (st.recvLog id))

lemma echoInv_init (u : Nat) : EchoInv (initConn .echo u) := by
  refine ⟨rfl, rfl, inv_init .echo u, ?_, ?_, ?_⟩
  · intro s hs
    simp [initConn] at hs
  · intro id
    constructor
    · intro s hs
      simp [initConn, find_stream] at hs
    · intro _ _
      exact ⟨rfl, rfl⟩
  · intro id
    exact prefOf_nil _

lemma echoInv_step {st : SState} {e : Ev} (hok : evOk st e = true)
    (hinv : EchoInv st) : EchoInv (step st e) := by
  obtain ⟨hp, hE, hinv0, hnc, hso, hpref⟩ := hinv
  have hinv1 : Inv (step st e) := inv_step hok hinv0
  cases e with
  | hsDone => exact ⟨hp, hE, hinv1, hnc, hso, hpref⟩
  | openStream id =>
    have hid : ¬ id ∈ st.closedIds := by
      simp only [evOk] at hok
      exact of_decide_eq_true hok
    have hstep : step st (.openStream id) =
        { st with streams := create_stream st.streams id } := by
      simp only [step, stream_open_cb, if_pos hp]
    rw [hstep] at hinv1 ⊢
    cases hfind : find_stream st.streams id with
    | some s =>
      have hC : create_stream st.streams id = st.streams := by
        unfold create_stream
        rw [hfind]
      rw [hC] at hinv1 ⊢
      exact ⟨hp, hE, hinv1, hnc, hso, hpref⟩
    | none =>
      have hC : create_stream st.streams id = newStream id :: st.streams := by
        unfold create_stream
        rw [hfind]
      obtain ⟨hrl, hsl⟩ := (hso id).2 hfind hid
      have hgoal4 : notClosed (create_stream st.streams id) st.closedIds := by
        rw [hC]
        intro x hx
        rcases List.mem_cons.mp hx with h1 | h1
        · rw [h1]
          exact hid
        · exact hnc x h1
      have hgoal5 : ∀ j, echoStreamOkL (create_stream st.streams id)
          st.closedIds st.recvLog st.sentLog j := by
        rw [hC]
        exact created_streamOk st.streams st.closedIds st.recvLog st.sentLog id
          hrl hsl hso
      exact ⟨hp, hE, hinv1, hgoal4, hgoal5, hpref⟩
  | recvEcho id data fin =>
    have hid : ¬ id ∈ st.closedIds := by
      simp only [evOk, Bool.and_eq_true] at hok
      exact of_decide_eq_true hok.2
    have hgoal6 : ∀ j, PrefOf (st.sentLog j) (logAppend st.recvLog id data j) := by
      intro j
      unfold logAppend
      by_cases hji : j = id
      · rw [if_pos hji]
        exact prefOf_append data (hpref j)
      · rw [if_neg hji]
        exact hpref j
    have hgoal4 : notClosed
        (update_stream (create_stream st.streams id) id (fun t =>
          { t with
              type := .raw_echo,
              sendbuf := t.sendbuf ++
                data.take (min data.length (STREAM_BUF_SIZE - t.sendbuf.length)),
              fin_received := t.fin_received || fin }))
        st.closedIds := by
      intro x hx
      rcases mem_update_stream hx with h1 | ⟨t, ht, hti, hxt⟩
      · rcases mem_create_stream h1 with h2 | h2
        · exact hnc x h2
        · rw [h2]
          exact hid
      · rcases mem_create_stream ht with h2 | h2
        · rw [hxt]
          exact hnc t h2
        · rw [hxt, h2]
          exact hid
    have hgoal5 : ∀ j, echoStreamOkL
        (update_stream (create_stream st.streams id) id (fun t =>
          { t with
              type := .raw_echo,
              sendbuf := t.sendbuf ++
                data.take (min data.length (STREAM_BUF_SIZE - t.sendbuf.length)),
              fin_received := t.fin_received || fin }))
        st.closedIds (logAppend st.recvLog id data) st.sentLog j := by
      cases hfind : find_stream st.streams id with
      | none =>
        obtain ⟨hrl, hsl⟩ := (hso id).2 hfind hid
        have hC : create_stream st.streams id = newStream id :: st.streams := by
          unfold create_stream
          rw [hfind]
        refine recv_echo_streamOk st.streams (create_stream st.streams id)
          st.closedIds st.recvLog st.sentLog id data fin (newStream id)
          ?_ ?_ ?_ ?_ ?_ hso
        · rw [hC]
          exact find_stream_cons_self rfl
        · intro j hj
          rw [hC]
          exact find_stream_cons_other (fun h => hj (by rw [← h]; rfl))
        · rw [hrl]
          rfl
        · rw [hsl]
          rfl
        · exact Nat.le.refl
      | some s =>
        obtain ⟨hbuf, hsl⟩ := (hso id).1 s hfind
        have hbnd := hinv0.2 s (find_stream_mem hfind).1
        have hC : create_stream st.streams id = st.streams := by
          unfold create_stream
          rw [hfind]
        refine recv_echo_streamOk st.streams (create_stream st.streams id)
          st.closedIds st.recvLog st.sentLog id data fin s ?_ ?_ hbuf hsl hbnd.1 hso
        · rw [hC]
          exact hfind
        · intro j hj
          rw [hC]
    exact ⟨hp, hE, hinv1, hgoal4, hgoal5, hgoal6⟩
  | recvWT id data =>
    exfalso
    simp only [evOk, Bool.and_eq_true, decide_eq_true_eq] at hok
    have h3 := hok.1.1
    rw [hp] at h3
    exact Proto.noConfusion h3
  | h3setup =>
    exfalso
    simp only [evOk, Bool.and_eq_true, decide_eq_true_eq] at hok
    have h3 := hok.1.1
    rw [hp] at h3
    exact Proto.noConfusion h3
  | schedEcho n =>
    cases hpick : pick st.streams with
    | none =>
      have hstep : step st (.schedEcho n) = st := by
        simp only [step, stepSchedEcho, hpick]
      rw [hstep]
      exact ⟨hp, hE, hinv0, hnc, hso, hpref⟩
    | some s =>
      obtain ⟨hsmem, helig⟩ := pick_mem hpick
      have hfind : find_stream st.streams s.stream_id = some s :=
        mem_find_stream hinv0.1 hsmem
      obtain ⟨hbuf, hsl⟩ := (hso s.stream_id).1 s hfind
      have hstep : step st (.schedEcho n) =
          { st with
              streams := update_stream st.streams s.stream_id
                (fun t => { t with sendoff := t.sendoff + n }),
              sentLog := logAppend st.sentLog s.stream_id
                ((s.sendbuf.drop s.sendoff).take n),
              sentFin := fun j =>
                if j = s.stream_id then
                  st.sentFin j ||
                    (s.fin_received && decide (s.sendbuf.length ≤ s.sendoff))
                else st.sentFin j } := by
        simp only [step, stepSchedEcho, hpick]
      rw [hstep] at hinv1 ⊢
      have hgoal4 : notClosed
          (update_stream st.streams s.stream_id
            (fun t => { t with sendoff := t.sendoff + n })) st.closedIds := by
        intro x hx
        rcases mem_update_stream hx with h1 | ⟨t, ht, hti, hxt⟩
        · exact hnc x h1
        · rw [hxt]
          exact hnc t ht
      have hgoal5 : ∀ j, echoStreamOkL
          (update_stream st.streams s.stream_id
            (fun t => { t with sendoff := t.sendoff + n }))
          st.closedIds st.recvLog
          (logAppend st.sentLog s.stream_id ((s.sendbuf.drop s.sendoff).take n))
          j :=
        sched_streamOk st.streams st.closedIds st.recvLog st.sentLog s n
          hfind hbuf hsl hso
      have hgoal6 : ∀ j, PrefOf
          (logAppend st.sentLog s.stream_id ((s.sendbuf.drop s.sendoff).take n) j)
          (st.recvLog j) := by
        intro j
        by_cases hji : j = s.stream_id
        · have hlg : logAppend st.sentLog s.stream_id
              ((s.sendbuf.drop s.sendoff).take n) j =
              st.sentLog s.stream_id ++ (s.sendbuf.drop s.sendoff).take n := by
            rw [hji]
            simp [logAppend]
          rw [hlg, hsl, ← List.take_add, hbuf, List.take_take, hji]
          exact prefOf_take (st.recvLog s.stream_id) _
        · have hlg : logAppend st.sentLog s.stream_id
              ((s.sendbuf.drop s.sendoff).take n) j = st.sentLog j := by
            simp [logAppend, hji]
          rw [hlg]
          exact hpref j
      exact ⟨hp, hE, hinv1, hgoal4, hgoal5, hgoal6⟩
  | schedH3 =>
    exfalso
    simp only [evOk, Bool.and_eq_true, decide_eq_true_eq] at hok
    have h3 := hok.1
    rw [hp] at h3
    exact Proto.noConfusion h3
  | closeStream id =>
    have hstep : step st (.closeStream id) =
        { st with
            wt_session_stream :=
              if st.wt_session_stream = id then -1 else st.wt_session_stream,
            streams := remove_stream st.streams id,
            bidiCreditExt := st.bidiCreditExt + 1,
            closedIds := id :: st.closedIds } := by
      simp only [step, stream_close_cb]
      rw [if_neg (by simp)]
    rw [hstep] at hinv1 ⊢
    have hnotid : ∀ x ∈ remove_stream st.streams id, x.stream_id ≠ id :=
      find_stream_none_forall (find_remove_stream_self hinv0.1)
    have hgoal4 : notClosed (remove_stream st.streams id) (id :: st.closedIds) := by
      intro x hx
      have hxmem := (remove_stream_sublist st.streams id).mem hx
      intro hmem
      rcases List.mem_cons.mp hmem with h1 | h1
      · exact hnotid x hx h1
      · exact hnc x hxmem h1
    have hgoal5 : ∀ j, echoStreamOkL (remove_stream st.streams id)
        (id :: st.closedIds) st.recvLog st.sentLog j := by
      intro j
      by_cases hji : j = id
      · constructor
        · intro x hx
          have h1 : find_stream (remove_stream st.streams id) j = none := by
            rw [hji]
            exact find_remove_stream_self hinv0.1
          rw [h1] at hx
          cases hx
        · intro _ hjc
          rw [hji] at hjc
          exact absurd (List.mem_cons_self id st.closedIds) hjc
      · have h1 : find_stream (remove_stream st.streams id) j =
            find_stream st.streams j := find_remove_stream_other hji
        constructor
        · intro x hx
          rw [h1] at hx
          exact (hso j).1 x hx
        · intro hnone hjc
          rw [h1] at hnone
          refine (hso j).2 hnone ?_
          intro hjmem
          exact hjc (List.mem_cons_of_mem id hjmem)
    exact ⟨hp, hE, hinv1, hgoal4, hgoal5, hpref⟩

lemma echoInv_run {st : SState} {es : List Ev} (hok : okTrace st es = true)
    (hinv : EchoInv st) : EchoInv (run st es) := by
  induction es generalizing st with
  | nil => exact hinv
  | cons e rest ih =>
    simp only [okTrace, Bool.and_eq_true] at hok
    exact ih hok.2 (echoInv_step hok.1 hinv)

end QuicEcho

namespace QuicEcho

/- ============================================================
   Draining the echo registry: the server-only event sequence that
   delivers every captured byte and the pending FINs
   ============================================================ -/

lemma run_cons (st : SState) (e : Ev) (es : List Ev) :
    run st (e :: es) = run (step st e) es := rfl

lemma okTrace_cons (st : SState) (e : Ev) (es : List Ev) :
    okTrace st (e :: es) = (evOk st e && okTrace (step st e) es) := rfl

lemma distinct_pre_ne {pre rest : List StreamData} {s : StreamData}
    (hd : DistinctIds (pre ++ s :: rest)) :
    ∀ x ∈ pre, x.stream_id ≠ s.stream_id := by
  intro x hx heq
  unfold DistinctIds at hd
  rw [List.map_append] at hd
  have hdisj := List.disjoint_of_nodup_append hd
  exact hdisj (List.mem_map_of_mem StreamData.stream_id hx)
    (by rw [heq]; simp)

lemma distinct_rest_ne {pre rest : List StreamData} {s : StreamData}
    (hd : DistinctIds (pre ++ s :: rest)) :
    ∀ x ∈ rest, x.stream_id ≠ s.stream_id := by
  intro x hx heq
  unfold DistinctIds at hd
  rw [List.map_append] at hd
  have h2 := hd.of_append_right
  rw [List.map_cons, List.nodup_cons] at h2
  exact h2.1 (by rw [← heq]; exact List.mem_map_of_mem StreamData.stream_id hx)

lemma find_stream_append_cons {pre rest : List StreamData} {s : StreamData} {id : Int}
    (hpre : ∀ x ∈ pre, x.stream_id ≠ id) (hs : s.stream_id = id) :
    find_stream (pre ++ s :: rest) id = some s := by
  induction pre with
  | nil =>
    simp only [List.nil_append]
    exact find_stream_cons_self hs
  | cons t p ih =>
    simp only [List.cons_append, find_stream]
    rw [if_neg (hpre t (by simp))]
    exact ih fun x hx => hpre x (by simp [hx])

lemma pick_split {pre rest : List StreamData} {s : StreamData}
    (hpre : ∀ x ∈ pre, eligible x = false) (hs : eligible s = true) :
    pick (pre ++ s :: rest) = some s := by
  rw [pick_append hpre]
  simp [pick, hs]

lemma step_sched_eq (st : SState) (s : StreamData) (n : Nat)
    (hpick : pick st.streams = some s) :
    step st (.schedEcho n) =
    { st with
        streams := update_stream st.streams s.stream_id
          (fun t => { t with sendoff := t.sendoff + n }),
        sentLog := logAppend st.sentLog s.stream_id
          ((s.sendbuf.drop s.sendoff).take n),
        sentFin := fun j =>
          if j = s.stream_id then
            st.sentFin j || (s.fin_received && decide (s.sendbuf.length ≤ s.sendoff))
          else st.sentFin j } := by
  simp only [step, stepSchedEcho, hpick]

lemma step_close_eq (st : SState) (id : Int) :
    step st (.closeStream id) =
    { st with
        wt_session_stream :=
          if st.wt_session_stream = id then -1 else st.wt_session_stream,
        streams := remove_stream st.streams id,
        bidiCreditExt := st.bidiCreditExt + 1,
        closedIds := id :: st.closedIds } := by
  simp only [step, stream_close_cb]
  rw [if_neg (by simp)]

lemma evOk_sched_of_pick {st : SState} {s : StreamData} {n : Nat}
    (hp : st.proto = .echo) (hE : st.engine = none)
    (hpick : pick st.streams = some s) (hn : n ≤ s.sendbuf.length - s.sendoff) :
    evOk st (.schedEcho n) = true := by
  simp [evOk, hp, hE, hpick, hn]

lemma evOk_close_of_find {st : SState} {id : Int} {s : StreamData}
    (h : find_stream st.streams id = some s) :
    evOk st (.closeStream id) = true := by
  simp [evOk, h]

/-- The server-only continuation that flushes each stream of a registry
snapshot: send all pending bytes, then (fin pending) the FIN, then let the
transport close the stream. -/
def drainEvents : List StreamData → List Ev
  | [] => []
  | s :: rest =>
    (if s.fin_received then
      [Ev.schedEcho (s.sendbuf.length - s.sendoff), Ev.schedEcho 0,
       Ev.closeStream s.stream_id]
    else if s.sendoff < s.sendbuf.length then
      [Ev.schedEcho (s.sendbuf.length - s.sendoff), Ev.closeStream s.stream_id]
    else []) ++ drainEvents rest

lemma drainEvents_serverOnly (l : List StreamData) :
    serverOnly (drainEvents l) = true := by
  induction l with
  | nil => rfl
  | cons s rest ih =>
    simp only [drainEvents, serverOnly, List.all_append, Bool.and_eq_true]
    refine ⟨?_, ih⟩
    by_cases h1 : s.fin_received
    · rw [if_pos h1]; rfl
    · rw [if_neg h1]
      by_cases h2 : s.sendoff < s.sendbuf.length
      · rw [if_pos h2]; rfl
      · rw [if_neg h2]; rfl

end QuicEcho

namespace QuicEcho

lemma logAppend_self (f : Int → List Nat) (id : Int) (d : List Nat) :
    logAppend f id d id = f id ++ d := by
  simp [logAppend]

lemma logAppend_other (f : Int → List Nat) {id j : Int} (d : List Nat) (h : j ≠ id) :
    logAppend f id d j = f j := by
  simp [logAppend, h]

/-- Complete effect of one echo scheduler iteration when the registry splits
as pre ++ s :: rest with everything in pre ineligible and s eligible. -/
lemma sched_full_facts (st : SState) (pre rest : List StreamData) (s : StreamData)
    (hinv : EchoInv st) (hsplit : st.streams = pre ++ s :: rest)
    (hpre : ∀ x ∈ pre, eligible x = false) (hse : eligible s = true)
    (n : Nat) (hn : n ≤ s.sendbuf.length - s.sendoff) :
    evOk st (.schedEcho n) = true ∧
    (step st (.schedEcho n)).streams =
      pre ++ ({ s with sendoff := s.sendoff + n }) :: rest ∧
    (step st (.schedEcho n)).sentLog s.stream_id = s.sendbuf.take (s.sendoff + n) ∧
    (step st (.schedEcho n)).sentFin s.stream_id =
      (st.sentFin s.stream_id ||
        (s.fin_received && decide (s.sendbuf.length ≤ s.sendoff))) ∧
    (∀ j, j ≠ s.stream_id →
      (step st (.schedEcho n)).sentLog j = st.sentLog j ∧
      (step st (.schedEcho n)).sentFin j = st.sentFin j) ∧
    (step st (.schedEcho n)).recvLog = st.recvLog := by
  have hp := hinv.1
  have hE := hinv.2.1
  have hd : DistinctIds st.streams := hinv.2.2.1.1
  have hpreSne : ∀ x ∈ pre, x.stream_id ≠ s.stream_id := by
    rw [hsplit] at hd
    exact distinct_pre_ne hd
  have hpick : pick st.streams = some s := by
    rw [hsplit]
    exact pick_split hpre hse
  have hfind : find_stream st.streams s.stream_id = some s := by
    rw [hsplit]
    exact find_stream_append_cons hpreSne rfl
  have hsl := ((hinv.2.2.2.2.1 s.stream_id).1 s hfind).2
  have hstep := step_sched_eq st s n hpick
  refine ⟨evOk_sched_of_pick hp hE hpick hn, ?_, ?_, ?_, ?_, ?_⟩
  · rw [hstep]
    show update_stream st.streams s.stream_id _ = _
    rw [hsplit]
    exact update_stream_split hpreSne rfl
  · rw [hstep]
    show logAppend st.sentLog s.stream_id ((s.sendbuf.drop s.sendoff).take n)
        s.stream_id = s.sendbuf.take (s.sendoff + n)
    rw [logAppend_self, hsl, ← List.take_add]
  · rw [hstep]
    show (if s.stream_id = s.stream_id then
        st.sentFin s.stream_id ||
          (s.fin_received && decide (s.sendbuf.length ≤ s.sendoff))
      else st.sentFin s.stream_id) = _
    rw [if_pos rfl]
  · intro j hj
    rw [hstep]
    constructor
    · show logAppend st.sentLog s.stream_id ((s.sendbuf.drop s.sendoff).take n) j =
          st.sentLog j
      exact logAppend_other _ _ hj
    · show (if j = s.stream_id then
          st.sentFin j || (s.fin_received && decide (s.sendbuf.length ≤ s.sendoff))
        else st.sentFin j) = st.sentFin j
      rw [if_neg hj]
  · rw [hstep]

/-- Complete effect of a transport close of the stream at the split point. -/
lemma close_full_facts (st : SState) (pre rest : List StreamData) (s : StreamData)
    (id : Int) (hsplit : st.streams = pre ++ s :: rest)
    (hpreSne : ∀ x ∈ pre, x.stream_id ≠ id) (hsid : s.stream_id = id) :
    evOk st (.closeStream id) = true ∧
    (step st (.closeStream id)).streams = pre ++ rest ∧
    (step st (.closeStream id)).sentLog = st.sentLog ∧
    (step st (.closeStream id)).sentFin = st.sentFin ∧
    (step st (.closeStream id)).recvLog = st.recvLog := by
  have hfind : find_stream st.streams id = some s := by
    rw [hsplit]
    exact find_stream_append_cons hpreSne hsid
  have hstep := step_close_eq st id
  refine ⟨evOk_close_of_find hfind, ?_, ?_, ?_, ?_⟩
  · rw [hstep]
    show remove_stream st.streams id = _
    rw [hsplit]
    exact remove_stream_split hpreSne hsid
  · rw [hstep]
  · rw [hstep]
  · rw [hstep]

end QuicEcho

namespace QuicEcho

/-- Running the drain continuation from any echo-mode state whose registry
splits into an ineligible prefix and a tail snapshot is a valid trace, closes
every eligible tail stream, delivers the full 64 KiB-truncation of each tail
stream's received bytes, hands the FIN of every fin-pending tail stream, and
leaves the receive log and the logs of untouched ids unchanged. -/
lemma drain_spec : ∀ (l pre : List StreamData) (st : SState),
    EchoInv st → st.streams = pre ++ l → (∀ x ∈ pre, eligible x = false) →
    okTrace st (drainEvents l) = true ∧
    (run st (drainEvents l)).streams = pre ++ l.filter (fun t => !(eligible t)) ∧
    (∀ x ∈ l, (run st (drainEvents l)).sentLog x.stream_id =
        (st.recvLog x.stream_id).take STREAM_BUF_SIZE ∧
      (x.fin_received = true → (run st (drainEvents l)).sentFin x.stream_id = true)) ∧
    (∀ j, (run st (drainEvents l)).recvLog j = st.recvLog j) ∧
    (∀ j, (∀ x ∈ l, x.stream_id ≠ j) →
      (run st (drainEvents l)).sentLog j = st.sentLog j ∧
      (run st (drainEvents l)).sentFin j = st.sentFin j) := by
  intro l
  induction l with
  | nil =>
    intro pre st hinv hsplit hpre
    refine ⟨rfl, ?_, ?_, ?_, ?_⟩
    · simpa using hsplit
    · intro x hx
      cases hx
    · intro j
      rfl
    · intro j _
      exact ⟨rfl, rfl⟩
  | cons s rest ih =>
    intro pre st hinv hsplit hpre
    have hinv0 := hinv.2.2.1
    have hso := hinv.2.2.2.2.1
    have hdsp : DistinctIds (pre ++ s :: rest) := by
      have hd := hinv0.1
      rwa [hsplit] at hd
    have hpreSne : ∀ x ∈ pre, x.stream_id ≠ s.stream_id := distinct_pre_ne hdsp
    have hrestSne : ∀ x ∈ rest, x.stream_id ≠ s.stream_id := distinct_rest_ne hdsp
    have hfind : find_stream st.streams s.stream_id = some s := by
      rw [hsplit]
      exact find_stream_append_cons hpreSne rfl
    have hbuf := ((hso s.stream_id).1 s hfind).1
    have hslog := ((hso s.stream_id).1 s hfind).2
    have hbnd := hinv0.2 s (by rw [hsplit]; simp)
    have hb1 := hbnd.1
    cases hfin : s.fin_received with
    | true =>
      have hse : eligible s = true := by simp [eligible, hfin]
      have hdr : drainEvents (s :: rest) =
          Ev.schedEcho (s.sendbuf.length - s.sendoff) :: Ev.schedEcho 0 ::
          Ev.closeStream s.stream_id :: drainEvents rest := by
        simp only [drainEvents]
        rw [if_pos hfin]
        rfl
      obtain ⟨he1, hstr1, hslog1, _hsfin1, hoth1, hrecv1⟩ :=
        sched_full_facts st pre rest s hinv hsplit hpre hse
          (s.sendbuf.length - s.sendoff) (Nat.le_refl _)
      have hinv1 := echoInv_step he1 hinv
      have hslog1b : (step st (Ev.schedEcho (s.sendbuf.length - s.sendoff))).sentLog
          s.stream_id = s.sendbuf := by
        rw [hslog1]
        have heq : s.sendoff + (s.sendbuf.length - s.sendoff) = s.sendbuf.length := by
          omega
        rw [heq, List.take_length]
      have hse1 : eligible
          ({ s with sendoff := s.sendoff + (s.sendbuf.length - s.sendoff) } :
            StreamData) = true := by
        simp [eligible, hfin]
      obtain ⟨he2, hstr2, hslog2, hsfin2, hoth2, hrecv2⟩ :=
        sched_full_facts (step st (Ev.schedEcho (s.sendbuf.length - s.sendoff)))
          pre rest ({ s with sendoff := s.sendoff + (s.sendbuf.length - s.sendoff) })
          hinv1 hstr1 hpre hse1 0 (Nat.zero_le _)
      have hinv2 := echoInv_step he2 hinv1
      have hslog2b : (step (step st (Ev.schedEcho (s.sendbuf.length - s.sendoff)))
          (Ev.schedEcho 0)).sentLog s.stream_id = s.sendbuf := by
        have h : (step (step st (Ev.schedEcho (s.sendbuf.length - s.sendoff)))
            (Ev.schedEcho 0)).sentLog s.stream_id =
            s.sendbuf.take (s.sendoff + (s.sendbuf.length - s.sendoff) + 0) := hslog2
        rw [h]
        have heq : s.sendoff + (s.sendbuf.length - s.sendoff) + 0 = s.sendbuf.length := by
          omega
        rw [heq, List.take_length]
      have hsfin2b : (step (step st (Ev.schedEcho (s.sendbuf.length - s.sendoff)))
          (Ev.schedEcho 0)).sentFin s.stream_id = true := by
        have h : (step (step st (Ev.schedEcho (s.sendbuf.length - s.sendoff)))
            (Ev.schedEcho 0)).sentFin s.stream_id =
            ((step st (Ev.schedEcho (s.sendbuf.length - s.sendoff))).sentFin
                s.stream_id ||
              (s.fin_received && decide (s.sendbuf.length ≤
                s.sendoff + (s.sendbuf.length - s.sendoff)))) := hsfin2
        rw [h, hfin]
        have hle : s.sendbuf.length ≤ s.sendoff + (s.sendbuf.length - s.sendoff) := by
          omega
        rw [decide_eq_true hle]
        simp
      obtain ⟨he3, hstr3, hslog3, hsfin3, hrecv3⟩ :=
        close_full_facts (step (step st (Ev.schedEcho (s.sendbuf.length - s.sendoff)))
            (Ev.schedEcho 0)) pre rest
          ({ { s with sendoff := s.sendoff + (s.sendbuf.length - s.sendoff) } with
              sendoff := s.sendoff + (s.sendbuf.length - s.sendoff) + 0 })
          s.stream_id hstr2 hpreSne rfl
      have hinv3 := echoInv_step he3 hinv2
      obtain ⟨hok4, hstr4, hmem4, hrecv4, hframe4⟩ :=
        ih pre (step (step (step st (Ev.schedEcho (s.sendbuf.length - s.sendoff)))
          (Ev.schedEcho 0)) (Ev.closeStream s.stream_id)) hinv3 hstr3 hpre
      rw [hdr]
      refine ⟨?_, ?_, ?_, ?_, ?_⟩
      · rw [okTrace_cons, he1, okTrace_cons, he2, okTrace_cons, he3, hok4]
        rfl
      · rw [run_cons, run_cons, run_cons]
        have hfl : List.filter (fun t => !(eligible t)) (s :: rest) =
            List.filter (fun t => !(eligible t)) rest := by
          simp [hse]
        rw [hfl]
        exact hstr4
      · rw [run_cons, run_cons, run_cons]
        intro x hx
        rcases List.mem_cons.mp hx with hxs | hxr
        · subst hxs
          constructor
          · rw [(hframe4 x.stream_id (fun y hy => hrestSne y hy)).1, hslog3, hslog2b]
            exact hbuf
          · intro _
            rw [(hframe4 x.stream_id (fun y hy => hrestSne y hy)).2, hsfin3]
            exact hsfin2b
        · have hm := hmem4 x hxr
          constructor
          · rw [hm.1, hrecv3, hrecv2, hrecv1]
          · exact hm.2
      · intro j
        rw [run_cons, run_cons, run_cons, hrecv4 j, hrecv3, hrecv2, hrecv1]
      · intro j hj
        rw [run_cons, run_cons, run_cons]
        have hjrest : ∀ x ∈ rest, x.stream_id ≠ j := fun x hx => hj x (by simp [hx])
        have hjs : s.stream_id ≠ j := hj s (by simp)
        have hfr := hframe4 j hjrest
        constructor
        · rw [hfr.1, hslog3, (hoth2 j (fun h => hjs h.symm)).1]
          exact (hoth1 j (fun h => hjs h.symm)).1
        · rw [hfr.2, hsfin3, (hoth2 j (fun h => hjs h.symm)).2]
          exact (hoth1 j (fun h => hjs h.symm)).2
    | false =>
      by_cases hlt : s.sendoff < s.sendbuf.length
      · have hse : eligible s = true := by simp [eligible, hlt]
        have hdr : drainEvents (s :: rest) =
            Ev.schedEcho (s.sendbuf.length - s.sendoff) ::
            Ev.closeStream s.stream_id :: drainEvents rest := by
          simp only [drainEvents]
          rw [if_neg (by simp [hfin]), if_pos hlt]
          rfl
        obtain ⟨he1, hstr1, hslog1, _hsfin1, hoth1, hrecv1⟩ :=
          sched_full_facts st pre rest s hinv hsplit hpre hse
            (s.sendbuf.length - s.sendoff) (Nat.le_refl _)
        have hinv1 := echoInv_step he1 hinv
        have hslog1b : (step st (Ev.schedEcho (s.sendbuf.length - s.sendoff))).sentLog
            s.stream_id = s.sendbuf := by
          rw [hslog1]
          have heq : s.sendoff + (s.sendbuf.length - s.sendoff) = s.sendbuf.length := by
            omega
          rw [heq, List.take_length]
        obtain ⟨he3, hstr3, hslog3, hsfin3, hrecv3⟩ :=
          close_full_facts (step st (Ev.schedEcho (s.sendbuf.length - s.sendoff)))
            pre rest ({ s with sendoff := s.sendoff + (s.sendbuf.length - s.sendoff) })
            s.stream_id hstr1 hpreSne rfl
        have hinv2 := echoInv_step he3 hinv1
        obtain ⟨hok4, hstr4, hmem4, hrecv4, hframe4⟩ :=
          ih pre (step (step st (Ev.schedEcho (s.sendbuf.length - s.sendoff)))
            (Ev.closeStream s.stream_id)) hinv2 hstr3 hpre
        rw [hdr]
        refine ⟨?_, ?_, ?_, ?_, ?_⟩
        · rw [okTrace_cons, he1, okTrace_cons, he3, hok4]
          rfl
        · rw [run_cons, run_cons]
          have hfl : List.filter (fun t => !(eligible t)) (s :: rest) =
              List.filter (fun t => !(eligible t)) rest := by
            simp [hse]
          rw [hfl]
          exact hstr4
        · rw [run_cons, run_cons]
          intro x hx
          rcases List.mem_cons.mp hx with hxs | hxr
          · subst hxs
            constructor
            · rw [(hframe4 x.stream_id (fun y hy => hrestSne y hy)).1, hslog3, hslog1b]
              exact hbuf
            · intro hcontra
              rw [hfin] at hcontra
              cases hcontra
          · have hm := hmem4 x hxr
            constructor
            · rw [hm.1, hrecv3, hrecv1]
            · exact hm.2
        · intro j
          rw [run_cons, run_cons, hrecv4 j, hrecv3, hrecv1]
        · intro j hj
          rw [run_cons, run_cons]
          have hjrest : ∀ x ∈ rest, x.stream_id ≠ j := fun x hx => hj x (by simp [hx])
          have hjs : s.stream_id ≠ j := hj s (by simp)
          have hfr := hframe4 j hjrest
          constructor
          · rw [hfr.1, hslog3]
            exact (hoth1 j (fun h => hjs h.symm)).1
          · rw [hfr.2, hsfin3]
            exact (hoth1 j (fun h => hjs h.symm)).2
      · have hse : eligible s = false := by
          simp [eligible, hfin, hlt]
        have hdr : drainEvents (s :: rest) = drainEvents rest := by
          simp only [drainEvents]
          rw [if_neg (by simp [hfin]), if_neg hlt]
          rfl
        have hsplit2 : st.streams = (pre ++ [s]) ++ rest := by
          rw [List.append_assoc]
          exact hsplit
        have hpre2 : ∀ x ∈ pre ++ [s], eligible x = false := by
          intro x hx
          rcases List.mem_append.mp hx with h1 | h1
          · exact hpre x h1
          · have hx2 := List.mem_singleton.mp h1
            subst hx2
            exact hse
        obtain ⟨hok4, hstr4, hmem4, hrecv4, hframe4⟩ :=
          ih (pre ++ [s]) st hinv hsplit2 hpre2
        have hoffeq : s.sendoff = s.sendbuf.length := by
          omega
        rw [hdr]
        refine ⟨hok4, ?_, ?_, hrecv4, ?_⟩
        · rw [hstr4]
          have hfl : List.filter (fun t => !(eligible t)) (s :: rest) =
              s :: List.filter (fun t => !(eligible t)) rest := by
            simp [hse]
          rw [hfl, List.append_assoc]
          rfl
        · intro x hx
          rcases List.mem_cons.mp hx with hxs | hxr
          · subst hxs
            constructor
            · rw [(hframe4 x.stream_id (fun y hy => hrestSne y hy)).1, hslog, hoffeq,
                List.take_length]
              exact hbuf
            · intro hcontra
              rw [hfin] at hcontra
              cases hcontra
          · exact hmem4 x hxr
        · intro j hj
          exact hframe4 j (fun x hx => hj x (List.mem_cons_of_mem s hx))

end QuicEcho

namespace QuicEcho

lemma run_append (st : SState) (a b : List Ev) :
    run st (a ++ b) = run (run st a) b := by
  unfold run
  exact List.foldl_append step st a b

lemma okTrace_append (st : SState) (a b : List Ev) :
    okTrace st (a ++ b) = (okTrace st a && okTrace (run st a) b) := by
  induction a generalizing st with
  | nil => rfl
  | cons e es ih =>
    simp only [List.cons_append, okTrace_cons, ih, run_cons, Bool.and_assoc]

lemma step_sched_none (st : SState) (n : Nat) (hpick : pick st.streams = none) :
    step st (.schedEcho n) = st := by
  simp only [step, stepSchedEcho, hpick]

/-- Server-only events (scheduler iterations and closes) never change the
receive log. -/
lemma serverOnly_recvLog (st : SState) (ks : List Ev)
    (hsrv : serverOnly ks = true) : ∀ j, (run st ks).recvLog j = st.recvLog j := by
  induction ks generalizing st with
  | nil => intro j; rfl
  | cons e es ih =>
    simp only [serverOnly, List.all_cons, Bool.and_eq_true] at hsrv
    intro j
    rw [run_cons]
    have hstep : (step st e).recvLog j = st.recvLog j := by
      cases e with
      | schedEcho n =>
        cases hpick : pick st.streams with
        | none =>
          have h := step_sched_none st n hpick
          rw [h]
        | some s =>
          rw [step_sched_eq st s n hpick]
      | closeStream id =>
        rw [step_close_eq st id]
      | hsDone => cases hsrv.1
      | openStream id => cases hsrv.1
      | recvEcho id d f => cases hsrv.1
      | recvWT id d => cases hsrv.1
      | h3setup => cases hsrv.1
      | schedH3 => cases hsrv.1
    rw [ih (step st e) hsrv.2 j, hstep]

/-- Length of the per-stream send log is bounded by the buffer capacity in
echo mode: the scheduler only ever hands out bytes captured in the 64 KiB
egress buffer. -/
lemma step_sentlen {st : SState} {e : Ev} (hok : evOk st e = true)
    (hinv : EchoInv st)
    (hlen : ∀ id, (st.sentLog id).length ≤ STREAM_BUF_SIZE) :
    ∀ id, ((step st e).sentLog id).length ≤ STREAM_BUF_SIZE := by
  cases e with
  | hsDone => exact hlen
  | openStream id =>
    intro j
    have h : (step st (.openStream id)).sentLog j = st.sentLog j := by
      simp only [step, stream_open_cb]
      by_cases hp : st.proto = .echo
      · rw [if_pos hp]
      · rw [if_neg hp]
    rw [h]
    exact hlen j
  | recvEcho id data fin => exact hlen
  | recvWT id data => exact hlen
  | h3setup =>
    intro j
    have h : (step st .h3setup).sentLog j = st.sentLog j := by
      simp only [step, setup_h3_connection]
      by_cases h1 : st.engine.isSome
      · rw [if_pos h1]
      · rw [if_neg h1]
        by_cases h2 : st.uniLeft < 3
        · rw [if_pos h2]
        · rw [if_neg h2]
    rw [h]
    exact hlen j
  | schedH3 =>
    exfalso
    simp only [evOk, Bool.and_eq_true, decide_eq_true_eq] at hok
    have h3 := hok.1
    rw [hinv.1] at h3
    exact Proto.noConfusion h3
  | closeStream id =>
    intro j
    rw [step_close_eq st id]
    exact hlen j
  | schedEcho n =>
    intro j
    cases hpick : pick st.streams with
    | none =>
      rw [step_sched_none st n hpick]
      exact hlen j
    | some s =>
      have hn : n ≤ s.sendbuf.length - s.sendoff := by
        simp only [evOk, hpick, Bool.and_eq_true] at hok
        exact of_decide_eq_true hok.2
      obtain ⟨hsmem, _⟩ := pick_mem hpick
      have hfind : find_stream st.streams s.stream_id = some s :=
        mem_find_stream hinv.2.2.1.1 hsmem
      have hsl := ((hinv.2.2.2.2.1 s.stream_id).1 s hfind).2
      have hbnd := hinv.2.2.1.2 s hsmem
      rw [step_sched_eq st s n hpick]
      by_cases hji : j = s.stream_id
      · show (logAppend st.sentLog s.stream_id
            ((s.sendbuf.drop s.sendoff).take n) j).length ≤ _
        rw [hji, logAppend_self, hsl, ← List.take_add, List.length_take]
        omega
      · show (logAppend st.sentLog s.stream_id
            ((s.sendbuf.drop s.sendoff).take n) j).length ≤ _
        rw [logAppend_other _ _ hji]
        exact hlen j

lemma echo_sentlen_run : ∀ (tr : List Ev) (st : SState),
    okTrace st tr = true → EchoInv st →
    (∀ id, (st.sentLog id).length ≤ STREAM_BUF_SIZE) →
    ∀ id, ((run st tr).sentLog id).length ≤ STREAM_BUF_SIZE := by
  intro tr
  induction tr with
  | nil => intro st _ _ hlen; exact hlen
  | cons e es ih =>
    intro st hok hinv hlen
    simp only [okTrace_cons, Bool.and_eq_true] at hok
    exact ih (step st e) hok.2 (echoInv_step hok.1 hinv) (step_sentlen hok.1 hinv hlen)

end QuicEcho

namespace QuicEcho

/- ============================================================
   Claim theorems
   ============================================================ -/

/-- C2: In raw-echo mode, every call of recv_stream_data(stream_id, data, fin)
creates the stream record if absent with kind RawEcho, copies exactly
min(datalen, 65536 - sendlen) bytes of data (its first that many bytes) to
the end of the stream's egress buffer, sets fin_received when fin is set, and
extends both the per-stream and the connection-level flow-control windows by
the full inbound length datalen, even when fewer bytes were buffered. -/
theorem c2_recv_stream_data_echo (streams : List StreamData) (id : Int)
    (data : List Nat) (fin : Bool) :
    ((recv_stream_data_echo streams id data fin).2.1 = data.length ∧
     (recv_stream_data_echo streams id data fin).2.2 = data.length) ∧
    (find_stream streams id = none →
      find_stream (recv_stream_data_echo streams id data fin).1 id =
        some { stream_id := id, type := .raw_echo,
               sendbuf := data.take (min data.length (STREAM_BUF_SIZE - 0)),
               sendoff := 0, fin_received := fin, method := [], path := [],
               protocol := [], wt_session_id := -1 }) ∧
    (∀ s, find_stream streams id = some s →
      find_stream (recv_stream_data_echo streams id data fin).1 id =
        some { s with
                type := .raw_echo,
                sendbuf := s.sendbuf ++
                  data.take (min data.length (STREAM_BUF_SIZE - s.sendbuf.length)),
                fin_received := s.fin_received || fin }) := by
  refine ⟨⟨rfl, rfl⟩, ?_, ?_⟩
  · intro hfind
    have hC : create_stream streams id = newStream id :: streams := by
      unfold create_stream
      rw [hfind]
    have hfc : find_stream (create_stream streams id) id = some (newStream id) := by
      rw [hC]
      exact find_stream_cons_self rfl
    have h2 : find_stream (recv_stream_data_echo streams id data fin).1 id =
        some ({ newStream id with
                type := .raw_echo,
                sendbuf := (newStream id).sendbuf ++
                  data.take (min data.length
                    (STREAM_BUF_SIZE - (newStream id).sendbuf.length)),
                fin_received := (newStream id).fin_received || fin }) :=
      find_update_stream_eq (fun t => rfl) hfc
    rw [h2]
    rfl
  · intro s hfind
    have hC : create_stream streams id = streams := by
      unfold create_stream
      rw [hfind]
    have hfc : find_stream (create_stream streams id) id = some s := by
      rw [hC]
      exact hfind
    exact find_update_stream_eq (fun t => rfl) hfc

/-- C2 witness at a concrete input: empty registry, id 0, three bytes, FIN. -/
theorem c2_witness :
    (((recv_stream_data_echo [] 0 [10, 20, 30] true).2.1 = 3 ∧
      (recv_stream_data_echo [] 0 [10, 20, 30] true).2.2 = 3) ∧
     (find_stream [] 0 = none →
       find_stream (recv_stream_data_echo [] 0 [10, 20, 30] true).1 0 =
         some { stream_id := 0, type := .raw_echo,
                sendbuf := [10, 20, 30].take (min 3 (STREAM_BUF_SIZE - 0)),
                sendoff := 0, fin_received := true, method := [], path := [],
                protocol := [], wt_session_id := -1 }) ∧
     (∀ s, find_stream [] 0 = some s →
       find_stream (recv_stream_data_echo [] 0 [10, 20, 30] true).1 0 =
         some { s with
                 type := .raw_echo,
                 sendbuf := s.sendbuf ++
                   [10, 20, 30].take (min 3 (STREAM_BUF_SIZE - s.sendbuf.length)),
                 fin_received := s.fin_received || true })) :=
  c2_recv_stream_data_echo [] 0 [10, 20, 30] true

/-- C3: h3_end_headers dispatches on the captured pseudo-headers:
CONNECT + webtransport makes the stream WTBidi, records it as the
wt_session_stream and accepts with 200 plus sec-webtransport-http3-draft:
draft02; CONNECT + websocket makes it WebSocket and accepts with a bare 200;
GET on "/" or "/.well-known/webtransport" answers 200 with content-type
text/plain (headers only, no body: no data provider is installed);
GET elsewhere answers 404; any method other than CONNECT and GET gets 405. -/
theorem c3_end_headers_dispatch (wt id : Int) (s : StreamData) :
    (s.method = "CONNECT".data → s.protocol = "webtransport".data →
      (h3_end_headers wt id s).1.type = .wt_bidi ∧
      (h3_end_headers wt id s).2.1 = id ∧
      (h3_end_headers wt id s).2.2 =
        [(":status".data, "200".data),
         ("sec-webtransport-http3-draft".data, "draft02".data)]) ∧
    (s.method = "CONNECT".data → s.protocol = "websocket".data →
      (h3_end_headers wt id s).1.type = .ws ∧
      (h3_end_headers wt id s).2.1 = wt ∧
      (h3_end_headers wt id s).2.2 = [(":status".data, "200".data)]) ∧
    (s.method = "GET".data →
      (s.path = "/".data ∨ s.path = "/.well-known/webtransport".data) →
      (h3_end_headers wt id s).2.2 =
        [(":status".data, "200".data),
         ("content-type".data, "text/plain".data)]) ∧
    (s.method = "GET".data → s.path ≠ "/".data →
      s.path ≠ "/.well-known/webtransport".data →
      (h3_end_headers wt id s).2.2 =
        [(":status".data, "404".data),
         ("content-type".data, "text/plain".data)]) ∧
    (s.method ≠ "CONNECT".data → s.method ≠ "GET".data →
      (h3_end_headers wt id s).2.2 = [(":status".data, "405".data)]) := by
  refine ⟨?_, ?_, ?_, ?_, ?_⟩
  · intro h1 h2
    unfold h3_end_headers
    rw [if_pos ⟨h1, h2⟩]
    exact ⟨rfl, rfl, rfl⟩
  · intro h1 h2
    unfold h3_end_headers
    rw [if_neg (fun hc => absurd (h2 ▸ hc.2) (by decide)), if_pos ⟨h1, h2⟩]
    exact ⟨rfl, rfl, rfl⟩
  · intro h1 h2
    unfold h3_end_headers
    rw [if_neg (fun hc => absurd (h1 ▸ hc.1) (by decide)),
        if_neg (fun hc => absurd (h1 ▸ hc.1) (by decide)), if_pos h1]
    rcases h2 with h2 | h2
    · rw [if_pos (Or.inr h2)]
      show submit_response 200 (some "text/plain".data) = _
      decide
    · rw [if_pos (Or.inl h2)]
      show submit_response 200 (some "text/plain".data) = _
      decide
  · intro h1 h2 h3
    unfold h3_end_headers
    rw [if_neg (fun hc => absurd (h1 ▸ hc.1) (by decide)),
        if_neg (fun hc => absurd (h1 ▸ hc.1) (by decide)), if_pos h1,
        if_neg (fun hc => hc.elim h3 h2)]
    show submit_response 404 (some "text/plain".data) = _
    decide
  · intro h1 h2
    unfold h3_end_headers
    rw [if_neg (fun hc => h1 hc.1), if_neg (fun hc => h1 hc.1), if_neg h2]
    show submit_response 405 none = _
    decide

/-- C3 witness at a concrete stream: a WebTransport extended CONNECT. -/
theorem c3_witness :
    ((h3_end_headers (-1) 4 {
        stream_id := 4, type := .h3_request, sendbuf := [],
        sendoff := 0, fin_received := false, method := "CONNECT".data,
        path := "/wt".data, protocol := "webtransport".data,
        wt_session_id := -1 }).1.type = .wt_bidi ∧
     (h3_end_headers (-1) 4 {
        stream_id := 4, type := .h3_request, sendbuf := [],
        sendoff := 0, fin_received := false, method := "CONNECT".data,
        path := "/wt".data, protocol := "webtransport".data,
        wt_session_id := -1 }).2.1 = 4 ∧
     (h3_end_headers (-1) 4 {
        stream_id := 4, type := .h3_request, sendbuf := [],
        sendoff := 0, fin_received := false, method := "CONNECT".data,
        path := "/wt".data, protocol := "webtransport".data,
        wt_session_id := -1 }).2.2 =
       [(":status".data, "200".data),
        ("sec-webtransport-http3-draft".data, "draft02".data)]) :=
  (c3_end_headers_dispatch (-1) 4 _).1 rfl rfl

end QuicEcho

namespace QuicEcho

/-- C9: h3_recv_header captures :method, :path and :protocol truncated to at
most 15, 255 and 31 characters respectively (the char-array capacity minus
the NUL terminator, which the model represents by storing the exact
truncated character list); longer values are truncated without error (the
callback returns 0), and end_headers dispatch depends only on the truncated
values. -/
theorem c9_recv_header_truncation (s : StreamData) (vm vp vpr vp2 : List Char)
    (wt id : Int) :
    ((h3_recv_header s .method vm).1.method = vm.take 15 ∧
     (h3_recv_header s .method vm).1.method.length ≤ 15 ∧
     (h3_recv_header s .method vm).2 = 0) ∧
    ((h3_recv_header s .path vp).1.path = vp.take 255 ∧
     (h3_recv_header s .path vp).1.path.length ≤ 255 ∧
     (h3_recv_header s .path vp).2 = 0) ∧
    ((h3_recv_header s .protocol vpr).1.protocol = vpr.take 31 ∧
     (h3_recv_header s .protocol vpr).1.protocol.length ≤ 31 ∧
     (h3_recv_header s .protocol vpr).2 = 0) ∧
    (vp.take 255 = vp2.take 255 →
      h3_end_headers wt id (h3_recv_header s .path vp).1 =
        h3_end_headers wt id (h3_recv_header s .path vp2).1) := by
  refine ⟨⟨rfl, ?_, rfl⟩, ⟨rfl, ?_, rfl⟩, ⟨rfl, ?_, rfl⟩, ?_⟩
  · show (vm.take 15).length ≤ 15
    rw [List.length_take]
    omega
  · show (vp.take 255).length ≤ 255
    rw [List.length_take]
    omega
  · show (vpr.take 31).length ≤ 31
    rw [List.length_take]
    omega
  · intro h
    show h3_end_headers wt id ({ s with path := vp.take 255 }) =
      h3_end_headers wt id ({ s with path := vp2.take 255 })
    rw [h]

/-- C9 witness: a 300-character path is cut to its first 255 characters. -/
theorem c9_witness :
    (((h3_recv_header (newStream 0) .method (List.replicate 20 'a')).1.method =
        (List.replicate 20 'a').take 15 ∧
      (h3_recv_header (newStream 0) .method (List.replicate 20 'a')).1.method.length
        ≤ 15 ∧
      (h3_recv_header (newStream 0) .method (List.replicate 20 'a')).2 = 0) ∧
     ((h3_recv_header (newStream 0) .path (List.replicate 300 'b')).1.path =
        (List.replicate 300 'b').take 255 ∧
      (h3_recv_header (newStream 0) .path (List.replicate 300 'b')).1.path.length
        ≤ 255 ∧
      (h3_recv_header (newStream 0) .path (List.replicate 300 'b')).2 = 0) ∧
     ((h3_recv_header (newStream 0) .protocol (List.replicate 40 'c')).1.protocol =
        (List.replicate 40 'c').take 31 ∧
      (h3_recv_header (newStream 0) .protocol (List.replicate 40 'c')).1.protocol.length
        ≤ 31 ∧
      (h3_recv_header (newStream 0) .protocol (List.replicate 40 'c')).2 = 0) ∧
     ((List.replicate 300 'b').take 255 = (List.replicate 256 'b').take 255 →
       h3_end_headers 0 0 (h3_recv_header (newStream 0) .path
         (List.replicate 300 'b')).1 =
       h3_end_headers 0 0 (h3_recv_header (newStream 0) .path
         (List.replicate 256 'b')).1)) :=
  c9_recv_header_truncation (newStream 0) (List.replicate 20 'a')
    (List.replicate 300 'b') (List.replicate 40 'c') (List.replicate 256 'b') 0 0

/-- C10: in h3 mode, when nghttp3_conn_read_stream returns a negative value,
recv_stream_data stores the inferred application error code in the
connection's last-error slot, returns NGTCP2_ERR_CALLBACK_FAILURE, and
extends neither the per-stream nor the connection flow-control window
(the extension lists are empty and the registry is untouched). -/
theorem c10_h3_read_error (st : SState) (sid : Int) (nconsumed : Int)
    (code : Nat) (h : nconsumed < 0) :
    (recv_stream_data_h3 st sid nconsumed code).1.last_error = some code ∧
    (recv_stream_data_h3 st sid nconsumed code).2.2.2 =
      NGTCP2_ERR_CALLBACK_FAILURE ∧
    (recv_stream_data_h3 st sid nconsumed code).2.1 = [] ∧
    (recv_stream_data_h3 st sid nconsumed code).2.2.1 = [] ∧
    (recv_stream_data_h3 st sid nconsumed code).1.streams = st.streams := by
  unfold recv_stream_data_h3
  rw [if_pos h]
  exact ⟨rfl, rfl, rfl, rfl, rfl⟩

/-- C10 witness at a concrete error return (-1, inferred code 265). -/
theorem c10_witness :
    (recv_stream_data_h3 (initConn .h3 3) 0 (-1) 265).1.last_error = some 265 ∧
    (recv_stream_data_h3 (initConn .h3 3) 0 (-1) 265).2.2.2 =
      NGTCP2_ERR_CALLBACK_FAILURE ∧
    (recv_stream_data_h3 (initConn .h3 3) 0 (-1) 265).2.1 = [] ∧
    (recv_stream_data_h3 (initConn .h3 3) 0 (-1) 265).2.2.1 = [] ∧
    (recv_stream_data_h3 (initConn .h3 3) 0 (-1) 265).1.streams =
      (initConn .h3 3).streams :=
  c10_h3_read_error (initConn .h3 3) 0 (-1) 265 (by decide)

/-- C7: recv_datagram calls writev_datagram exactly once with a single
vector holding the inbound payload, sends at most one UDP datagram — and
only when the write returned positive and accepted is set — drops the
payload silently when accepted is false, and always returns 0. -/
theorem c7_datagram_echo (payload : List Nat) (nwrite : Int) (accepted : Bool)
    (txpkt : List Nat) :
    (recv_datagram_cb payload nwrite accepted txpkt).writevCalls = [[payload]] ∧
    (recv_datagram_cb payload nwrite accepted txpkt).udpDatagrams.length ≤ 1 ∧
    (accepted = false →
      (recv_datagram_cb payload nwrite accepted txpkt).udpDatagrams = []) ∧
    ((recv_datagram_cb payload nwrite accepted txpkt).udpDatagrams ≠ [] →
      0 < nwrite ∧ accepted = true) ∧
    (recv_datagram_cb payload nwrite accepted txpkt).ret = 0 := by
  refine ⟨rfl, ?_, ?_, ?_, rfl⟩
  · show (if 0 < nwrite ∧ accepted = true then [txpkt] else []).length ≤ 1
    by_cases h : 0 < nwrite ∧ accepted = true
    · rw [if_pos h]
      exact Nat.le_refl 1
    · rw [if_neg h]
      exact Nat.zero_le 1
  · intro hacc
    show (if 0 < nwrite ∧ accepted = true then [txpkt] else []) = []
    rw [if_neg (fun hc => by rw [hacc] at hc; cases hc.2)]
  · intro hne
    by_cases h : 0 < nwrite ∧ accepted = true
    · exact h
    · exfalso
      apply hne
      show (if 0 < nwrite ∧ accepted = true then [txpkt] else []) = []
      rw [if_neg h]

/-- C7 witness: an accepted datagram with a positive write. -/
theorem c7_witness :
    (recv_datagram_cb [0, 1, 2, 3] 40 true [9, 9]).writevCalls = [[[0, 1, 2, 3]]] ∧
    (recv_datagram_cb [0, 1, 2, 3] 40 true [9, 9]).udpDatagrams.length ≤ 1 ∧
    (true = false → (recv_datagram_cb [0, 1, 2, 3] 40 true [9, 9]).udpDatagrams = []) ∧
    ((recv_datagram_cb [0, 1, 2, 3] 40 true [9, 9]).udpDatagrams ≠ [] →
      0 < (40 : Int) ∧ true = true) ∧
    (recv_datagram_cb [0, 1, 2, 3] 40 true [9, 9]).ret = 0 :=
  c7_datagram_echo [0, 1, 2, 3] 40 true [9, 9]

end QuicEcho

namespace QuicEcho

/-- C8: after a successful stream_close(stream_id) — with distinct registry
ids, as every reachable registry has — the stream is no longer in the
registry, the peer's bidi-stream credit has been extended by exactly one, and
if the closed id was the connection's wt_session_stream it has been reset to
-1; this holds for every closed stream, bidirectional or not (the code never
inspects the stream id's type before extending the bidi credit). -/
theorem c8_stream_close (st : SState) (id : Int) (h3rv : Int) (code : Nat)
    (hd : DistinctIds st.streams)
    (hsucc : st.engine = none ∨ h3rv = 0 ∨ h3rv = NGHTTP3_ERR_STREAM_NOT_FOUND) :
    (stream_close_cb st id h3rv code).2 = 0 ∧
    find_stream (stream_close_cb st id h3rv code).1.streams id = none ∧
    (stream_close_cb st id h3rv code).1.bidiCreditExt = st.bidiCreditExt + 1 ∧
    (st.wt_session_stream = id →
      (stream_close_cb st id h3rv code).1.wt_session_stream = -1) := by
  have hcond : ¬(st.engine.isSome ∧ h3rv ≠ 0 ∧
      h3rv ≠ NGHTTP3_ERR_STREAM_NOT_FOUND) := by
    rcases hsucc with h | h | h
    · intro hc
      rw [h] at hc
      exact absurd hc.1 (by simp)
    · intro hc
      exact hc.2.1 h
    · intro hc
      exact hc.2.2 h
  unfold stream_close_cb
  rw [if_neg hcond]
  refine ⟨rfl, ?_, rfl, ?_⟩
  · exact find_remove_stream_self hd
  · intro hwt
    show (if st.wt_session_stream = id then -1 else st.wt_session_stream) = -1
    rw [if_pos hwt]

/-- State used by the C8 witness: one registered stream 5 which is also the
WebTransport session stream. -/
def stC8 : SState :=
  { initConn .echo 10 with streams := [newStream 5], wt_session_stream := 5 }

/-- C8 witness: closing stream 5 of stC8. -/
theorem c8_witness :
    (stream_close_cb stC8 5 0 0).2 = 0 ∧
    find_stream (stream_close_cb stC8 5 0 0).1.streams 5 = none ∧
    (stream_close_cb stC8 5 0 0).1.bidiCreditExt = stC8.bidiCreditExt + 1 ∧
    (stC8.wt_session_stream = 5 →
      (stream_close_cb stC8 5 0 0).1.wt_session_stream = -1) :=
  c8_stream_close stC8 5 0 0 (by simp [stC8, initConn, DistinctIds, newStream])
    (Or.inl rfl)

/-- State used by claim C1: handshake finished, ALPN=h3, engine absent, and
the peer allows only 2 unidirectional stream credits. -/
def stC1 : SState := { initConn .h3 2 with handshake_done := true }

/-- C1 counterexample: at HTTP/3 setup time with fewer than 3 peer
unidirectional stream credits, setup_h3_connection does fail (returns -1),
but handle_packet leaves the connection completely unchanged: no application
error code is recorded in the last-error slot (the mechanism by which this
server closes a connection with an application error), no engine is created,
and processing simply continues — the connection is not closed, contradicting
the claim. -/
theorem c1_counterexample :
    (setup_h3_connection stC1).2 = -1 ∧
    handle_packet_h3_setup stC1 = stC1 ∧
    (handle_packet_h3_setup stC1).last_error = none := by
  refine ⟨rfl, rfl, rfl⟩

/-- C1 (amended): if at HTTP/3 setup time (handshake done, ALPN=h3, engine
absent) the peer has allowed fewer than 3 unidirectional stream credits,
then HTTP/3 setup fails (setup_h3_connection returns -1), the failure is
only logged, and the connection state — including the last-error slot — is
left unchanged; the connection is not closed. -/
theorem c1_setup_failure_only_logged (st : SState)
    (hhs : st.handshake_done = true) (hproto : st.proto = .h3)
    (heng : st.engine = none) (hcred : st.uniLeft < 3) :
    (setup_h3_connection st).2 = -1 ∧
    handle_packet_h3_setup st = st ∧
    (handle_packet_h3_setup st).last_error = st.last_error := by
  have hsetup : setup_h3_connection st = (st, -1) := by
    unfold setup_h3_connection
    rw [if_neg (by rw [heng]; simp), if_pos hcred]
  have hhp : handle_packet_h3_setup st = st := by
    unfold handle_packet_h3_setup
    rw [if_pos ⟨hhs, hproto, by rw [heng]; rfl⟩, hsetup]
  refine ⟨by rw [hsetup], hhp, by rw [hhp]⟩

/-- C1 witness: the amended claim applied at the concrete state stC1. -/
theorem c1_witness :
    (setup_h3_connection stC1).2 = -1 ∧
    handle_packet_h3_setup stC1 = stC1 ∧
    (handle_packet_h3_setup stC1).last_error = stC1.last_error :=
  c1_setup_failure_only_logged stC1 rfl rfl rfl (by decide)

end QuicEcho

namespace QuicEcho

/-- C4: along every valid event trace of a connection — stream creation,
inbound data delivery in raw-echo or h3 mode, HTTP/3 setup, write-scheduler
iterations (where the transport consumes at most the offered vector, per the
ngtcp2 contract) and stream closes — every stream s in the registry satisfies
0 ≤ sendoff ≤ sendlen ≤ 65536. -/
theorem c4_registry_bounds (p : Proto) (u : Nat) (tr : List Ev)
    (hok : okTrace (initConn p u) tr = true) :
    ∀ s ∈ (run (initConn p u) tr).streams,
      0 ≤ s.sendoff ∧ s.sendoff ≤ s.sendbuf.length ∧
      s.sendbuf.length ≤ STREAM_BUF_SIZE := by
  have h := inv_run hok (inv_init p u)
  intro s hs
  exact ⟨Nat.zero_le _, (h.2 s hs).1, (h.2 s hs).2⟩

/-- Concrete stream record reached by the C4 witness trace. -/
def sC4 : StreamData :=
  { stream_id := 0, type := .raw_echo, sendbuf := [7, 8], sendoff := 1,
    fin_received := false, method := [], path := [], protocol := [],
    wt_session_id := -1 }

/-- C4 witness: a concrete echo trace delivering two bytes on stream 0 and
running one scheduler iteration that consumes one byte. -/
theorem c4_witness :
    0 ≤ sC4.sendoff ∧ sC4.sendoff ≤ sC4.sendbuf.length ∧
    sC4.sendbuf.length ≤ STREAM_BUF_SIZE :=
  c4_registry_bounds .echo 0 [.recvEcho 0 [7, 8] false, .schedEcho 1]
    (by decide) sC4 (by decide)

/-- C5 (amended): in raw-echo mode the server never hands the transport a
stream byte it did not first receive on the same stream id — the bytes
handed out on each id form an initial segment of the bytes received on that
id.  (As stated over every execution the claim fails in HTTP/3 mode, where
the engine emits SETTINGS bytes on the server's own control stream; see the
counterexample.) -/
theorem c5_echo_sent_only_received (u : Nat) (tr : List Ev)
    (hok : okTrace (initConn .echo u) tr = true) :
    ∀ id, ∃ n, (run (initConn .echo u) tr).sentLog id =
      ((run (initConn .echo u) tr).recvLog id).take n := by
  have h := echoInv_run hok (echoInv_init u)
  intro id
  exact ⟨((run (initConn .echo u) tr).sentLog id).length,
    (h.2.2.2.2.2 id).symm⟩

/-- C5 witness: after receiving two bytes and echoing one of them on
stream 0, the sent log is a take-prefix of the receive log. -/
theorem c5_witness :
    ∃ n, (run (initConn .echo 0) [.recvEcho 0 [7, 8] false, .schedEcho 1]).sentLog 0 =
      ((run (initConn .echo 0) [.recvEcho 0 [7, 8] false, .schedEcho 1]).recvLog 0).take n :=
  c5_echo_sent_only_received 0 [.recvEcho 0 [7, 8] false, .schedEcho 1]
    (by decide) 0

/-- C5 counterexample: the claim as stated — over every execution of the
server, every byte the write scheduler hands to the transport was previously
received on the same stream id — is false: on an h3 connection the engine's
SETTINGS bytes go out on the server-initiated control stream (id 3), a
stream the peer never wrote to. -/
theorem c5_counterexample :
    ¬ (∀ (p : Proto) (u : Nat) (tr : List Ev),
        okTrace (initConn p u) tr = true →
        ∀ id, ∃ n, (run (initConn p u) tr).sentLog id =
          ((run (initConn p u) tr).recvLog id).take n) := by
  intro h
  obtain ⟨n, hn⟩ := h .h3 3 [.hsDone, .h3setup, .schedH3] (by decide) 3
  have hsent : (run (initConn .h3 3) [.hsDone, .h3setup, .schedH3]).sentLog 3 =
      settingsBytes := by rfl
  have hrecv : (run (initConn .h3 3) [.hsDone, .h3setup, .schedH3]).recvLog 3 =
      [] := by rfl
  rw [hsent, hrecv, List.take_nil] at hn
  exact absurd hn (by decide)

end QuicEcho

namespace QuicEcho

/-- C6 (amended): for every raw-echo stream the scheduler only ever offers
bytes already captured in sendbuf, attaches FIN only when fin_received is set
and all captured bytes are delivered (both facts are built into the
scheduler's step: the offered vector is sendbuf[sendoff..sendlen) and the FIN
flag requires fin_received ∧ sendoff ≥ sendlen), and — the substance proved
here — after the peer has sent N ≤ 65536 bytes and FIN on a stream, there is
a valid server-only continuation (scheduler iterations and transport closes,
no further peer input) after which the transport has been handed exactly
those N bytes, in order, followed by FIN on the same stream id.
(For N > 65536 the claim as frozen fails because of the silent 64 KiB
truncation; see the counterexample.) -/
theorem c6_echo_eventually_delivers (u : Nat) (tr : List Ev)
    (hok : okTrace (initConn .echo u) tr = true)
    (s : StreamData) (hs : s ∈ (run (initConn .echo u) tr).streams)
    (hfin : s.fin_received = true)
    (hN : ((run (initConn .echo u) tr).recvLog s.stream_id).length ≤
      STREAM_BUF_SIZE) :
    ∃ ks, serverOnly ks = true ∧
      okTrace (run (initConn .echo u) tr) ks = true ∧
      (run (run (initConn .echo u) tr) ks).sentLog s.stream_id =
        (run (initConn .echo u) tr).recvLog s.stream_id ∧
      (run (run (initConn .echo u) tr) ks).sentFin s.stream_id = true := by
  have hinv := echoInv_run hok (echoInv_init u)
  obtain ⟨hok2, _hstr, hmem, _hrecv, _hframe⟩ :=
    drain_spec (run (initConn .echo u) tr).streams [] (run (initConn .echo u) tr)
      hinv rfl (by intro x hx; cases hx)
  refine ⟨drainEvents (run (initConn .echo u) tr).streams,
    drainEvents_serverOnly _, hok2, ?_, (hmem s hs).2 hfin⟩
  rw [(hmem s hs).1]
  exact List.take_of_length_le hN

/-- Concrete stream record reached by the C6 witness trace. -/
def sC6w : StreamData :=
  { stream_id := 0, type := .raw_echo, sendbuf := [1, 2, 3], sendoff := 0,
    fin_received := true, method := [], path := [], protocol := [],
    wt_session_id := -1 }

/-- C6 witness: the peer sends three bytes and FIN on stream 0; the drain
continuation hands exactly those bytes and the FIN to the transport. -/
theorem c6_witness :
    ∃ ks, serverOnly ks = true ∧
      okTrace (run (initConn .echo 0) [.recvEcho 0 [1, 2, 3] true]) ks = true ∧
      (run (run (initConn .echo 0) [.recvEcho 0 [1, 2, 3] true]) ks).sentLog
          (sC6w.stream_id) =
        (run (initConn .echo 0) [.recvEcho 0 [1, 2, 3] true]).recvLog
          (sC6w.stream_id) ∧
      (run (run (initConn .echo 0) [.recvEcho 0 [1, 2, 3] true]) ks).sentFin
          (sC6w.stream_id) = true :=
  c6_echo_eventually_delivers 0 [.recvEcho 0 [1, 2, 3] true] (by decide)
    sC6w (by decide) (by decide) (by decide)

end QuicEcho

namespace QuicEcho

/-- C6 counterexample state: the peer sends 65537 bytes and FIN on stream 0
of a raw-echo connection; the 64 KiB egress buffer silently truncates the
last byte while the full length is still credited to flow control. -/
def stC6 : SState :=
  run (initConn .echo 0) [.recvEcho 0 (List.replicate 65537 7) true]

/-- C6 counterexample: with N = 65537 the claim as frozen — after the peer
sends N bytes and FIN, the server eventually sends exactly those N bytes
followed by FIN on the same stream id — is false: no valid server-only
continuation can ever hand the transport more than 65536 bytes on stream 0,
because only the 64 KiB egress buffer is ever offered to the transport. -/
theorem c6_counterexample :
    ¬ (∃ ks, serverOnly ks = true ∧ okTrace stC6 ks = true ∧
        (run stC6 ks).sentLog 0 = (run stC6 ks).recvLog 0 ∧
        (run stC6 ks).sentFin 0 = true) := by
  rintro ⟨ks, hsrv, hoks, heq, _⟩
  have hrecv0 : stC6.recvLog 0 = List.replicate 65537 7 := by
    show logAppend (fun _ => []) 0 (List.replicate 65537 7) 0 = _
    rw [logAppend_self]
    exact List.nil_append _
  have hok0 : okTrace (initConn .echo 0)
      [.recvEcho 0 (List.replicate 65537 7) true] = true := by decide
  have hokall : okTrace (initConn .echo 0)
      ([.recvEcho 0 (List.replicate 65537 7) true] ++ ks) = true := by
    rw [okTrace_append, hok0, Bool.true_and]
    exact hoks
  have hlen : ((run (initConn .echo 0)
      ([.recvEcho 0 (List.replicate 65537 7) true] ++ ks)).sentLog 0).length ≤
      STREAM_BUF_SIZE :=
    echo_sentlen_run ([.recvEcho 0 (List.replicate 65537 7) true] ++ ks)
      (initConn .echo 0) hokall (echoInv_init 0) (fun _ => Nat.zero_le _) 0
  rw [run_append] at hlen
  have hlenrecv : ((run stC6 ks).recvLog 0).length = 65537 := by
    rw [serverOnly_recvLog stC6 ks hsrv 0, hrecv0, List.length_replicate]
  have hlensent := congrArg List.length heq
  rw [hlenrecv] at hlensent
  have hB : ((run stC6 ks).sentLog 0).length ≤ STREAM_BUF_SIZE := hlen
  rw [hlensent] at hB
  exact absurd hB (by decide)

end QuicEcho
